import Mathlib

/-!
Shallow embedding of the ring-protocol engine of `drivers/net/xen-netfront.c`
(guest side of the Xen split network interface), together with proofs of the
specification claims about it.

Conventions of the embedding:
* Ring indices (`RING_IDX`, a free-running `u32`) are modelled as unbounded
  `Nat` absolute counters; the driver only ever forms differences of counters
  that are at most one ring apart, where `u32` arithmetic and `Nat` arithmetic
  agree, so theorems carry the corresponding `≤` hypotheses explicitly.
* The `sk_buff* / freelist-link` union in `struct tx_slot` is modelled exactly
  as in the source: a single machine word, with values below `PAGE_OFFSET`
  being freelist links and values at or above it being buffer pointers.
* Network buffers (`struct sk_buff`) are identified by opaque numeric ids;
  freeing a buffer appends its id to a ghost `freed` list so that resource
  accounting can be stated.
* The grant table (`gnttab_*`, an external kernel API) is modelled as a pool:
  `claim` pops the head of a free list, `release` pushes a reference back,
  and `end_foreign_access` records the reference in a ghost `ended` list.
  `gnttab_query_foreign_access` / a failing `gnttab_end_foreign_access_ref`
  are driven by an adversary-chosen predicate `still_mapped`; the `BUG()`
  paths of the source are modelled by returning `none`.
-/

namespace XenNetfront

/-! ## Constants from the source and the kernel headers it uses -/

def PAGE_SIZE : Nat := 4096

/-- Kernel constant: `MAX_SKB_FRAGS = 65536/PAGE_SIZE + 2`. -/
def MAX_SKB_FRAGS : Nat := 65536 / PAGE_SIZE + 2

/-- `#define RX_COPY_THRESHOLD 256` -/
def RX_COPY_THRESHOLD : Nat := 256

/-- `#define GRANT_INVALID_REF 0` -/
def GRANT_INVALID_REF : Nat := 0

/-- Kernel constant `ETH_HLEN`. -/
def ETH_HLEN : Nat := 14

/-- Kernel constant `ETH_DATA_LEN`. -/
def ETH_DATA_LEN : Nat := 1500

/-- `XEN_NETIF_RSP_NULL` (a "hole" response that carries no completion). -/
def XEN_NETIF_RSP_NULL : Int := 1

/-- `PAGE_OFFSET`: kernel pointers are at or above this address; freelist
link values are always below it (see the comment above `struct tx_slot`). -/
def PAGE_OFFSET : Nat := 2 ^ 39

def EINVAL : Int := 22
def ENOENT : Int := 2
def E2BIG : Int := 7
def EBADR : Int := 53

/-- `NETDEV_TX_OK` -/
def NETDEV_TX_OK : Int := 0

/-! ## TX descriptor-id freelist (`add_id_to_freelist` / `get_id_from_freelist`)

`struct tx_slot` holds a union of an `sk_buff` pointer and a freelist link,
plus a grant reference.  The union is one machine word; we keep it as `word`.
-/

structure TxSlot where
  word : Nat
  gref : Nat
deriving Repr, DecidableEq

/-- `skb_entry_set_link`: store a freelist link in the slot's union word. -/
def skb_entry_set_link (slots : Nat → TxSlot) (id : Nat) (link : Nat) :
    Nat → TxSlot :=
  fun j => if j = id then { slots j with word := link } else slots j

/-- `skb_entry_is_link`: the union holds a link iff the word is below
`PAGE_OFFSET`. -/
def skb_entry_is_link (s : TxSlot) : Bool := s.word < PAGE_OFFSET

/-- `add_id_to_freelist(head, list, id)`:
`list[id].link = *head; *head = id`.  Returns the new head and table. -/
def add_id_to_freelist (head : Nat) (list : Nat → TxSlot) (id : Nat) :
    Nat × (Nat → TxSlot) :=
  (id, skb_entry_set_link list id head)

/-- `get_id_from_freelist(head, list)`:
`id = *head; *head = list[id].link; return id`.
Returns the id handed out and the new head. -/
def get_id_from_freelist (head : Nat) (list : Nat → TxSlot) : Nat × Nat :=
  (head, (list head).word)

/-! ## `xennet_change_mtu` -/

/-- `xennet_can_sg(dev)`: whether `NETIF_F_SG` is set in the device features. -/
def xennet_can_sg (features_sg : Bool) : Bool := features_sg

/-- `xennet_change_mtu(dev, mtu)`.  Result: `(return value, new dev->mtu)`. -/
def xennet_change_mtu (features_sg : Bool) (dev_mtu : Int) (mtu : Int) :
    Int × Int :=
  let max : Int := if xennet_can_sg features_sg then 65535 - ETH_HLEN
                   else ETH_DATA_LEN
  if mtu > max then (-EINVAL, dev_mtu)
  else (0, mtu)

/-! ## TX submit path: `xennet_start_xmit` and `xennet_make_frags`

The submit path is modelled as a pure function from the packet and the
negotiated capabilities to the sequence of ring slots it writes, threading
the descriptor freelist and the TX grant pool.
-/

/-- `skb->ip_summed` values. -/
inductive IpSummed where
  | none
  | unnecessary
  | complete
  | partial_
deriving Repr, DecidableEq

/-- The `XEN_NETTXF_*` flag bits of a TX request, as a record. -/
structure TxFlags where
  csum_blank : Bool := false
  data_validated : Bool := false
  more_data : Bool := false
  extra_info : Bool := false
deriving Repr, DecidableEq

/-- `struct xen_netif_tx_request`. -/
structure TxRequest where
  id : Nat
  gref : Nat
  offset : Nat
  size : Nat
  flags : TxFlags
deriving Repr, DecidableEq

/-- The GSO extra-info record written by the TX path
(`struct xen_netif_extra_info`, `u.gso` payload). -/
structure TxGsoExtra where
  size : Nat
  ty : Nat
  pad : Nat
  features : Nat
  extra_type : Nat
  extra_flags : Nat
deriving Repr, DecidableEq

/-- `XEN_NETIF_EXTRA_TYPE_GSO` -/
def XEN_NETIF_EXTRA_TYPE_GSO : Nat := 1

/-- `XEN_NETIF_EXTRA_TYPE_MAX` -/
def XEN_NETIF_EXTRA_TYPE_MAX : Nat := 2

/-- `XEN_NETIF_GSO_TYPE_TCPV4` -/
def XEN_NETIF_GSO_TYPE_TCPV4 : Nat := 1

/-- A slot written to the TX ring: either a request descriptor or an
extra-info record overlaying a request-sized slot. -/
inductive TxRingEntry where
  | req (r : TxRequest)
  | extra (g : TxGsoExtra)
deriving Repr, DecidableEq

/-- A scatter-gather page fragment of an `sk_buff` (`skb_frag_t`). -/
structure SkbFrag where
  page_offset : Nat
  size : Nat
deriving Repr, DecidableEq

/-- The part of `struct sk_buff` the TX path reads.
`head_offset` is `offset_in_page(skb->data)`, hence bounded by the page size. -/
structure SkBuff where
  head_offset : Fin PAGE_SIZE
  head_len : Nat
  frags : List SkbFrag
  gso_size : Nat
  ip_summed : IpSummed
  total_len : Nat
deriving Repr, DecidableEq

/-- The TX-side mutable state threaded through submission: descriptor
freelist and grant pool.  The grant pool (`gref_tx_head`) is the list of
currently free TX grant references; `claim` pops the head. -/
structure TxPoolState where
  tx_skb_freelist : Nat
  tx_slots : Nat → TxSlot
  gref_tx_head : List Nat

/-- Pop a descriptor id from the freelist and record the buffer in its slot
(`get_id_from_freelist` followed by `np->tx_slots[id].skb = ...`), then claim
a grant reference, grant the backend access and record it in the slot
(`gnttab_claim_grant_reference`, `gnttab_grant_foreign_access_ref`,
`tx->gref = np->tx_slots[id].gref = ref`).  `skbWord` is the buffer pointer
stored in the slot.  Returns `(id, ref, state)`; `none` models the
`BUG_ON((signed short)ref < 0)` when the grant pool is exhausted. -/
def txSlotAlloc (skbWord : Nat) (st : TxPoolState) :
    Option (Nat × Nat × TxPoolState) :=
  let (id, head') := get_id_from_freelist st.tx_skb_freelist st.tx_slots
  match st.gref_tx_head with
  | [] => none
  | ref :: pool =>
    some (id, ref,
      { tx_skb_freelist := head',
        tx_slots := fun j => if j = id then { word := skbWord, gref := ref }
                             else st.tx_slots j,
        gref_tx_head := pool })

/-- The page-spanning head-splitting loop of `xennet_make_frags`:

```
while (len > PAGE_SIZE - offset) {
    tx->size = PAGE_SIZE - offset; tx->flags |= XEN_NETTXF_more_data;
    len -= tx->size; data += tx->size; offset = 0;
    id = get_id_from_freelist(...); tx = RING_GET_REQUEST(&np->tx, prod++);
    tx->id = id; ref = gnttab_claim_grant_reference(...);
    tx->gref = ...; tx->offset = offset; tx->size = len; tx->flags = 0;
}
```

`cur` is the most recently written request (initially the head request).
Returns the list of requests finalised by the loop, the still-open current
request, and the threaded pool state. -/
def make_frags_head_loop (skbWord : Nat) (offset : Fin PAGE_SIZE) (len : Nat)
    (cur : TxRequest) (st : TxPoolState) :
    Option (List TxRequest × TxRequest × TxPoolState) :=
  if PAGE_SIZE - offset.val < len then
    let fl := { cur.flags with more_data := true }
    let emitted := { cur with size := PAGE_SIZE - offset.val, flags := fl }
    let len' := len - (PAGE_SIZE - offset.val)
    match txSlotAlloc skbWord st with
    | Option.none => none
    | Option.some (id, ref, st') =>
      match make_frags_head_loop skbWord ⟨0, by decide⟩ len'
          { id := id, gref := ref, offset := 0, size := len', flags := {} }
          st' with
      | Option.none => none
      | Option.some (rest, last, st'') => some (emitted :: rest, last, st'')
  else
    some ([], cur, st)
termination_by len
decreasing_by
  simp only [PAGE_SIZE] at *
  omega

/-- The scatter-gather fragment loop of `xennet_make_frags`: one descriptor
per `skb_frag_t`, setting `more_data` on the previous request each time. -/
def make_frags_frag_loop (skbWord : Nat) (frags : List SkbFrag)
    (cur : TxRequest) (st : TxPoolState) :
    Option (List TxRequest × TxRequest × TxPoolState) :=
  match frags with
  | [] => some ([], cur, st)
  | f :: fs =>
    let emitted := { cur with flags := { cur.flags with more_data := true } }
    match txSlotAlloc skbWord st with
    | Option.none => none
    | Option.some (id, ref, st') =>
      match make_frags_frag_loop skbWord fs
          { id := id, gref := ref, offset := f.page_offset, size := f.size,
            flags := {} } st' with
      | Option.none => none
      | Option.some (rest, last, st'') => some (emitted :: rest, last, st'')

/-- `xennet_make_frags(skb, dev, tx)`: split the head region across page
boundaries, then emit one descriptor per fragment.  Returns the requests
finalised after the head request, the final (last) request, and the state. -/
def xennet_make_frags (skb : SkBuff) (skbWord : Nat) (cur : TxRequest)
    (st : TxPoolState) : Option (List TxRequest × TxRequest × TxPoolState) :=
  match make_frags_head_loop skbWord skb.head_offset skb.head_len cur st with
  | Option.none => none
  | Option.some (eh, cur1, st1) =>
    match make_frags_frag_loop skbWord skb.frags cur1 st1 with
    | Option.none => none
    | Option.some (ef, last, st2) => some (eh ++ ef, last, st2)

/-- `DIV_ROUND_UP` -/
def DIV_ROUND_UP (n d : Nat) : Nat := (n + d - 1) / d

/-- Outcome of `xennet_start_xmit`. -/
structure XmitResult where
  /-- The function's return value (always `NETDEV_TX_OK`). -/
  ret : Int
  /-- Whether the packet was dropped (`dev->stats.tx_dropped++; dev_kfree_skb`). -/
  dropped : Bool
  /-- The ring slots written, in ring order. -/
  entries : List TxRingEntry
  /-- Pool state after the call. -/
  st : TxPoolState

/-- The checksum flags computed by `xennet_start_xmit`:

```
tx->flags = 0;
if (skb->ip_summed == CHECKSUM_PARTIAL)
    tx->flags |= XEN_NETTXF_csum_blank | XEN_NETTXF_data_validated;
else if (skb->ip_summed == CHECKSUM_UNNECESSARY)
    tx->flags |= XEN_NETTXF_data_validated;
```
-/
def xmitCsumFlags (s : IpSummed) : TxFlags :=
  match s with
  | IpSummed.partial_ => { csum_blank := true, data_validated := true }
  | IpSummed.unnecessary => { data_validated := true }
  | _ => {}

/-- Overwrite the size of the first request of a list
(the final `tx->size = skb->len`, where `tx` still points at the head
request). -/
def setHeadSize (sz : Nat) : List TxRequest → List TxRequest
  | [] => []
  | r :: rs => { r with size := sz } :: rs

/-- `xennet_start_xmit(skb, dev)`.

Inputs beyond the packet: `carrier` (`netif_carrier_ok`), `can_sg`
(`xennet_can_sg(dev)`), `needs_gso` (`netif_needs_gso(skb,
netif_skb_features(skb))`, i.e. the packet requires a segmentation offload
the device has not negotiated), and `skbWord` (the buffer pointer value).
`none` models a `BUG_ON` (grant pool exhausted). -/
def xennet_start_xmit (skb : SkBuff) (skbWord : Nat)
    (carrier can_sg needs_gso : Bool) (st : TxPoolState) :
    Option XmitResult :=
  let offset := skb.head_offset
  let len := skb.head_len
  let fragCount := skb.frags.length + DIV_ROUND_UP (offset.val + len) PAGE_SIZE
  if fragCount > MAX_SKB_FRAGS + 1 then
    some { ret := NETDEV_TX_OK, dropped := true, entries := [], st := st }
  else if !carrier || (decide (fragCount > 1) && !can_sg) || needs_gso then
    some { ret := NETDEV_TX_OK, dropped := true, entries := [], st := st }
  else
    match txSlotAlloc skbWord st with
    | Option.none => none
    | Option.some (id, ref, st1) =>
      let headReq : TxRequest :=
        { id := id, gref := ref, offset := offset.val, size := len,
          flags := xmitCsumFlags skb.ip_summed }
      let useGso := skb.gso_size ≠ 0
      let headReq :=
        if useGso then { headReq with flags :=
                          { headReq.flags with extra_info := true } }
        else headReq
      match xennet_make_frags skb skbWord headReq st1 with
      | Option.none => none
      | Option.some (emitted, last, st2) =>
        let dataReqs :=
          match emitted with
          | [] => [last]
          | _ => emitted ++ [last]
        let dataReqs := setHeadSize skb.total_len dataReqs
        let gsoEntries : List TxRingEntry :=
          if useGso then
            [TxRingEntry.extra
              { size := skb.gso_size, ty := XEN_NETIF_GSO_TYPE_TCPV4,
                pad := 0, features := 0,
                extra_type := XEN_NETIF_EXTRA_TYPE_GSO, extra_flags := 0 }]
          else []
        match dataReqs with
        | [] => none
        | h :: t =>
          some { ret := NETDEV_TX_OK, dropped := false,
                 entries := TxRingEntry.req h :: gsoEntries ++
                            t.map TxRingEntry.req,
                 st := st2 }

/-! ## TX completion garbage collection: `xennet_tx_buf_gc`

The pass is modelled with the sequential semantics of one invocation: the
backend's `rsp_prod` does not move underneath it, so the outer
`do { ... } while` runs exactly once.
-/

/-- `struct xen_netif_tx_response`. -/
structure TxResponse where
  id : Nat
  status : Int
deriving Repr, DecidableEq

/-- The TX ring counters and the backend-written response array. -/
structure TxRingState where
  rsp_cons : Nat
  sring_rsp_prod : Nat
  sring_req_prod : Nat
  rsp_event : Nat
  ring : Nat → TxResponse

/-- Environment: which grant references the backend still has mapped
(`gnttab_query_foreign_access(ref) != 0`). -/
structure GcEnv where
  still_mapped : Nat → Bool

/-- The inner `for (cons = np->tx.rsp_cons; cons != prod; cons++)` loop of
`xennet_tx_buf_gc`.  For each response with non-`NULL` status it ends and
releases the grant, invalidates the slot's reference, returns the id to the
freelist and frees the buffer.  Returns the pool state, the list of
`(ring position, id)` pairs freed, and the buffer words freed; `none` models
the `BUG()` taken when the backend still has the grant mapped. -/
def gcLoop (env : GcEnv) (ring : Nat → TxResponse) (cons prod : Nat)
    (st : TxPoolState) :
    Option (TxPoolState × List (Nat × Nat) × List Nat) :=
  if cons < prod then
    let rsp := ring cons
    if rsp.status = XEN_NETIF_RSP_NULL then gcLoop env ring (cons + 1) prod st
    else
      let id := rsp.id
      let slot := st.tx_slots id
      if env.still_mapped slot.gref then none
      else
        let slots1 := fun j =>
          if j = id then { st.tx_slots j with gref := GRANT_INVALID_REF }
          else st.tx_slots j
        let (head1, slots2) := add_id_to_freelist st.tx_skb_freelist slots1 id
        let st1 : TxPoolState :=
          { tx_skb_freelist := head1, tx_slots := slots2,
            gref_tx_head := slot.gref :: st.gref_tx_head }
        match gcLoop env ring (cons + 1) prod st1 with
        | Option.none => none
        | Option.some (stf, freed, skbs) =>
          some (stf, (cons, id) :: freed, slot.word :: skbs)
  else
    some (st, [], [])
termination_by prod - cons
decreasing_by all_goals omega

/-- `xennet_tx_buf_gc(dev)`, sequential semantics of one invocation:
consume everything up to the observed `rsp_prod`, then re-arm
`rsp_event = prod + ((req_prod - prod) >> 1) + 1`. -/
def xennet_tx_buf_gc (env : GcEnv) (rs : TxRingState) (st : TxPoolState) :
    Option (TxRingState × TxPoolState × List (Nat × Nat) × List Nat) :=
  let prod := rs.sring_rsp_prod
  match gcLoop env rs.ring rs.rsp_cons prod st with
  | Option.none => none
  | Option.some (st', freed, skbs) =>
    let ev := prod + (rs.sring_req_prod - prod) / 2 + 1
    let rs' := { rs with rsp_cons := prod, rsp_event := ev }
    some (rs', st', freed, skbs)

/-! ## The TX descriptor-id lifecycle transition system (for the reuse claim)

States combine the ring counters, the freelist/grant pool, and two ghost
lists: `pending` (ids handed out whose completion the backend has not yet
written) and `inflight` (ids handed out and not yet returned to the
freelist).  The ghosts do not influence the driver-side dynamics; the
`complete` step's `pending` guard expresses that the backend completes each
outstanding descriptor exactly once, which is the regime the claim speaks
about ("its corresponding completion").
-/

structure TxLtsState where
  ring : TxRingState
  pool : TxPoolState
  pending : List Nat
  inflight : List Nat

/-- Labels of the TX id-lifecycle transition system. -/
inductive TxLabel where
  | handout (id : Nat)
  | complete (id : Nat) (status : Int)
  | nullResp (id : Nat)
  | gc (freed : List (Nat × Nat))

/-- One get_id_from_freelist/claim pair as performed per descriptor by the
submit path (`xennet_start_xmit` / `xennet_make_frags`), one response
written by the backend (well-behaved: a non-`NULL` completion names a
pending id; a `NULL` hole carries anything), or one GC pass. -/
inductive TxStep (N : Nat) (env : GcEnv) : TxLtsState → TxLabel → TxLtsState → Prop where
  | handout : ∀ s skbWord id ref pool',
      s.pool.tx_skb_freelist < N →
      txSlotAlloc skbWord s.pool = some (id, ref, pool') →
      TxStep N env s (TxLabel.handout id)
        { ring := s.ring, pool := pool',
          pending := s.pending ++ [id], inflight := s.inflight ++ [id] }
  | complete : ∀ s id status,
      id ∈ s.pending → status ≠ XEN_NETIF_RSP_NULL →
      TxStep N env s (TxLabel.complete id status)
        { ring := { s.ring with
                    sring_rsp_prod := s.ring.sring_rsp_prod + 1,
                    ring := fun j => if j = s.ring.sring_rsp_prod
                                     then { id := id, status := status }
                                     else s.ring.ring j },
          pool := s.pool,
          pending := s.pending.erase id, inflight := s.inflight }
  | nullResp : ∀ s id,
      TxStep N env s (TxLabel.nullResp id)
        { ring := { s.ring with
                    sring_rsp_prod := s.ring.sring_rsp_prod + 1,
                    ring := fun j => if j = s.ring.sring_rsp_prod
                                     then { id := id,
                                            status := XEN_NETIF_RSP_NULL }
                                     else s.ring.ring j },
          pool := s.pool,
          pending := s.pending, inflight := s.inflight }
  | gc : ∀ s rs' pool' freed skbs,
      xennet_tx_buf_gc env s.ring s.pool = some (rs', pool', freed, skbs) →
      TxStep N env s (TxLabel.gc freed)
        { ring := rs', pool := pool',
          pending := s.pending,
          inflight := s.inflight.filter
            (fun id => decide (id ∉ freed.map Prod.snd)) }

/-- The initial state after `talk_to_netback` set the rings up:
`tx_slots[i].link = i+1`, `tx_skb_freelist = 0`, empty rings. -/
def txInit (ring0 : Nat → TxResponse) (grefs : List Nat) :
    TxLtsState :=
  { ring := { rsp_cons := 0, sring_rsp_prod := 0, sring_req_prod := 0,
              rsp_event := 0, ring := ring0 },
    pool := { tx_skb_freelist := 0,
              tx_slots := fun i => { word := i + 1, gref := GRANT_INVALID_REF },
              gref_tx_head := grefs },
    pending := [], inflight := [] }

/-- Reachability in the TX id-lifecycle system. -/
inductive TxReachable (N : Nat) (env : GcEnv) (ring0 : Nat → TxResponse)
    (grefs : List Nat) : TxLtsState → Prop where
  | init : TxReachable N env ring0 grefs (txInit ring0 grefs)
  | step : ∀ s lab s', TxReachable N env ring0 grefs s →
      TxStep N env s lab s' → TxReachable N env ring0 grefs s'

/-- The ids of the non-`NULL` responses in ring positions `[cons, prod)`. -/
def segIds (ring : Nat → TxResponse) (cons prod : Nat) : List Nat :=
  if cons < prod then
    (if (ring cons).status = XEN_NETIF_RSP_NULL then []
     else [(ring cons).id]) ++ segIds ring (cons + 1) prod
  else []
termination_by prod - cons
decreasing_by all_goals omega

/-- The freelist chain through the slot table: starting from `head`,
following `word` links, the chain visits exactly the ids in the list, and
ends when the link value leaves `[0, N)`. -/
inductive FreelistRepr (N : Nat) (slots : Nat → TxSlot) : Nat → List Nat → Prop where
  | nil : ∀ head, N ≤ head → FreelistRepr N slots head []
  | cons : ∀ head rest, head < N →
      FreelistRepr N slots ((slots head).word) rest →
      FreelistRepr N slots head (head :: rest)

/-- The inductive invariant of the id-lifecycle system: some list `free`
is represented by the freelist chain, has no duplicates and is disjoint
from the in-flight ids; the in-flight ids are, up to permutation, the
pending ids plus the ids of the unconsumed completions; and all in-flight
ids are in range. -/
def TxInv (N : Nat) (s : TxLtsState) : Prop :=
  (∃ free, FreelistRepr N s.pool.tx_slots s.pool.tx_skb_freelist free ∧
    free.Nodup ∧ (∀ x ∈ free, x ∉ s.inflight)) ∧
  s.inflight.Nodup ∧
  s.inflight.Perm
    (s.pending ++ segIds s.ring.ring s.ring.rsp_cons s.ring.sring_rsp_prod) ∧
  (∀ x ∈ s.inflight, x < N) ∧
  s.ring.rsp_cons ≤ s.ring.sring_rsp_prod

/-! ## RX engine state

One state record serves the buffer-supply side (`xennet_alloc_rx_buffers`)
and the response parser (`xennet_get_responses` and the poll loop).  The
request and response views of the shared ring are kept as separate arrays
(`reqRing` / `sring`); this is sound for the properties proved here because
the parser reads each response before any request can be written over its
slot (the driver keeps at most one ring of requests outstanding).
`ended`, `freed`, `vanished` are ghost lists for resource accounting:
grants whose foreign access was ended, buffers freed, and buffers silently
dropped (a buffer is appended to `vanished` when the code lets its last
reference go out of scope without freeing or requeuing it). -/

/-- The `XEN_NETRXF_*` flag bits of an RX response. -/
structure RxFlags where
  more_data : Bool := false
  extra_info : Bool := false
  csum_blank : Bool := false
  data_validated : Bool := false
deriving Repr, DecidableEq

/-- `struct xen_netif_rx_response`.  `status` is a byte length or a
negative error code. -/
structure RxResponse where
  id : Nat
  offset : Nat
  flags : RxFlags
  status : Int
deriving Repr, DecidableEq

/-- The extra-info view of a response-sized ring slot
(`struct xen_netif_extra_info` with the GSO payload). -/
structure RxExtra where
  ty : Nat
  more : Bool
  gso_size : Nat
  gso_ty : Nat
deriving Repr, DecidableEq

/-- One response-ring slot, readable either as a response or as an
extra-info record (the backend chooses which bytes it writes). -/
structure RxRingSlot where
  rsp : RxResponse
  ext : RxExtra
deriving Repr, DecidableEq

/-- `struct xen_netif_rx_request`. -/
structure RxRequest where
  id : Nat
  gref : Nat
deriving Repr, DecidableEq

/-- `struct rx_slot`: the local shadow of an outstanding RX buffer. -/
structure RxSlot where
  skb : Option Nat
  gref : Nat
deriving Repr, DecidableEq

structure RxState where
  ringSize : Nat
  rx_slots : Nat → RxSlot
  rsp_cons : Nat
  req_prod_pvt : Nat
  sring_req_prod : Nat
  sring_rsp_prod : Nat
  sring : Nat → RxRingSlot
  reqRing : Nat → RxRequest
  gref_rx_head : List Nat
  rx_target : Nat
  rx_min_target : Nat
  rx_max_target : Nat
  rx_batch : List Nat
  next_skb : Nat
  timer_armed : Bool
  rx_errors : Nat
  errq : List Nat
  rxq : List Nat
  ended : List Nat
  freed : List Nat
  vanished : List Nat

/-- Environment for the RX paths: which grant references the backend still
has mapped (makes `gnttab_end_foreign_access_ref` fail). -/
structure RxEnv where
  still_mapped : Nat → Bool

/-- `xennet_rxidx`: ring index modulo the (power-of-two) ring size. -/
def xennet_rxidx (s : RxState) (idx : Nat) : Nat := idx % s.ringSize

/-- `xennet_get_rx_skb`: read and clear the slot's buffer. -/
def xennet_get_rx_skb (s : RxState) (ri : Nat) : Option Nat × RxState :=
  let i := xennet_rxidx s ri
  let skb := (s.rx_slots i).skb
  let slots' := fun j => if j = i then { s.rx_slots j with skb := none }
                         else s.rx_slots j
  (skb, { s with rx_slots := slots' })

/-- `xennet_get_rx_ref`: read and invalidate the slot's grant reference. -/
def xennet_get_rx_ref (s : RxState) (ri : Nat) : Nat × RxState :=
  let i := xennet_rxidx s ri
  let ref := (s.rx_slots i).gref
  let slots' := fun j =>
    if j = i then { s.rx_slots j with gref := GRANT_INVALID_REF }
    else s.rx_slots j
  (ref, { s with rx_slots := slots' })

/-- `xennet_move_rx_slot`: requeue a buffer (with its still-granted
reference) as a fresh RX request at the private producer.  `none` models
the `BUG_ON(np->rx_slots[new].skb)`. -/
def xennet_move_rx_slot (s : RxState) (skb : Option Nat) (ref : Nat) :
    Option RxState :=
  let new := xennet_rxidx s s.req_prod_pvt
  if (s.rx_slots new).skb ≠ none then none
  else
    let slots' := fun j => if j = new then { skb := skb, gref := ref }
                           else s.rx_slots j
    let reqs' := fun j => if j = s.req_prod_pvt then { id := new, gref := ref }
                          else s.reqRing j
    some { s with
           rx_slots := slots', reqRing := reqs',
           req_prod_pvt := s.req_prod_pvt + 1 }

/-- The `do ... while (extra->flags & XEN_NETIF_EXTRA_FLAG_MORE)` loop of
`xennet_get_extras`.  `cons` is the last consumed ring position; the source
tests `cons + 1 == rp`, which the model renders as `rp ≤ cons + 1` (the two
agree whenever `cons < rp`, which the poll loop guarantees).  Returns the
accumulated error, the stored GSO extra, the final `cons` and the state. -/
def getExtrasLoop (env : RxEnv) (rp : Nat) (cons : Nat) (err : Int)
    (extras : Option RxExtra) (s : RxState) :
    Option (Int × Option RxExtra × Nat × RxState) :=
  if rp ≤ cons + 1 then some (-EBADR, extras, cons, s)
  else
    let cons' := cons + 1
    let extra := (s.sring cons').ext
    let bad := extra.ty = 0 ∨ XEN_NETIF_EXTRA_TYPE_MAX ≤ extra.ty
    let err' := if bad then -EINVAL else err
    let extras' := if bad then extras else some extra
    let (skb, s1) := xennet_get_rx_skb s cons'
    let (ref, s2) := xennet_get_rx_ref s1 cons'
    match xennet_move_rx_slot s2 skb ref with
    | Option.none => none
    | Option.some s3 =>
      if extra.more then getExtrasLoop env rp cons' err' extras' s3
      else some (err', extras', cons', s3)
termination_by rp - cons
decreasing_by all_goals omega

/-- `xennet_get_extras(np, extras, rp)`. -/
def xennet_get_extras (env : RxEnv) (s : RxState) (rp : Nat) :
    Option (Int × Option RxExtra × RxState) :=
  match getExtrasLoop env rp s.rsp_cons 0 none s with
  | Option.none => none
  | Option.some (err, extras, cons, s') =>
    some (err, extras, { s' with rsp_cons := cons })

/-- One validation step of the chain loop of `xennet_get_responses`:
reject a bad offset/length (requeueing the slot), reject an invalid grant
reference, or end and release the grant and queue the fragment. -/
def getRespStep1 (env : RxEnv) (rx : RxResponse) (skb : Option Nat)
    (ref : Nat) (err : Int) (list : List Nat) (s : RxState) :
    Option (Int × List Nat × RxState) :=
  if rx.status < 0 ∨ (rx.offset : Int) + rx.status > (PAGE_SIZE : Int) then
    match xennet_move_rx_slot s skb ref with
    | Option.none => none
    | Option.some s' => some (-EINVAL, list, s')
  else if ref = GRANT_INVALID_REF then
    match skb with
    | Option.none => some (-EINVAL, list, s)
    | Option.some x => some (-EINVAL, list,
        { s with vanished := s.vanished ++ [x] })
  else
    match skb with
    | Option.none => none
    | Option.some x =>
      if env.still_mapped ref then none
      else some (err, list ++ [x],
        { s with ended := s.ended ++ [ref],
                 gref_rx_head := ref :: s.gref_rx_head })

/-- The `for (;;)` chain loop of `xennet_get_responses`.  `cons` is the
base position (fixed for the whole call), `frags` the number of slots
consumed so far, `rx`/`skb`/`ref` the current response and the buffer and
grant taken from its slot.  The source tests `cons + frags == rp`, which
the model renders as `rp ≤ cons + frags` (the two agree whenever
`cons + frags ≤ rp`, which holds on entry).  Returns the accumulated
error, the fragment list, the final `frags` and the state; `none` models
the `BUG_ON(!ret)` after `gnttab_end_foreign_access_ref` and the crash on
queueing a `NULL` buffer. -/
def getRespLoop (env : RxEnv) (rp : Nat) (cons : Nat) (rx : RxResponse)
    (skb : Option Nat) (ref : Nat) (frags : Nat) (err : Int)
    (list : List Nat) (s : RxState) :
    Option (Int × List Nat × Nat × RxState) :=
  match getRespStep1 env rx skb ref err list s with
  | Option.none => none
  | Option.some (err1, list1, s1) =>
    if !rx.flags.more_data then some (err1, list1, frags, s1)
    else if rp ≤ cons + frags then some (-ENOENT, list1, frags, s1)
    else
      let rx' := (s1.sring (cons + frags)).rsp
      let (skb', s2) := xennet_get_rx_skb s1 (cons + frags)
      let (ref', s3) := xennet_get_rx_ref s2 (cons + frags)
      getRespLoop env rp cons rx' skb' ref' (frags + 1) err1 list1 s3
termination_by rp - (cons + frags)
decreasing_by all_goals omega

/-- `xennet_get_responses(np, rinfo, rp, list)`.  `rinfo` is the copy of
the head response made by the poll loop.  Returns the error, the stored
GSO extra, the fragment list and the state (with `rsp_cons` advanced past
the chain on error, as in the source). -/
def xennet_get_responses (env : RxEnv) (s : RxState) (rinfo : RxResponse)
    (rp : Nat) : Option (Int × Option RxExtra × List Nat × RxState) :=
  let (skb, s1) := xennet_get_rx_skb s s.rsp_cons
  let (ref, s2) := xennet_get_rx_ref s1 s.rsp_cons
  let maxFrags := MAX_SKB_FRAGS +
    (if rinfo.status ≤ (RX_COPY_THRESHOLD : Int) then 1 else 0)
  let afterExtras :=
    if rinfo.flags.extra_info then xennet_get_extras env s2 rp
    else some (0, none, s2)
  match afterExtras with
  | Option.none => none
  | Option.some (err0, extras, s3) =>
    let cons := s3.rsp_cons
    match getRespLoop env rp cons rinfo skb ref 1 err0 [] s3 with
    | Option.none => none
    | Option.some (err1, list, frags, s4) =>
      let err2 := if maxFrags < frags then -E2BIG else err1
      let s5 := if err2 ≠ 0 then { s4 with rsp_cons := cons + frags } else s4
      some (err2, extras, list, s5)

/-- `xennet_set_skb_gso(skb, gso)`: validate the segmentation parameters
(the metadata stored on the buffer is not tracked). -/
def xennet_set_skb_gso (g : RxExtra) : Int :=
  if g.gso_size = 0 then -EINVAL
  else if g.gso_ty ≠ XEN_NETIF_GSO_TYPE_TCPV4 then -EINVAL
  else 0

/-- One iteration of the `while ((i != rp) && (work_done < budget))` body
of `xennet_poll`: parse one packet chain; on error, drain the fragments to
the error queue, bump the error counter and continue at the advanced
consumer.  Returns the state and whether `work_done` was incremented;
`none` models a `BUG`/crash path. -/
def pollIteration (env : RxEnv) (s : RxState) (rp : Nat) :
    Option (RxState × Bool) :=
  let rx := (s.sring s.rsp_cons).rsp
  match xennet_get_responses env s rx rp with
  | Option.none => none
  | Option.some (err, extras, tmpq, s1) =>
    if err ≠ 0 then
      some ({ s1 with
              errq := s1.errq ++ tmpq,
              rx_errors := s1.rx_errors + 1 }, false)
    else
      match tmpq with
      | [] => none
      | skb :: rest =>
        let gsoFail :=
          match extras with
          | Option.some g => xennet_set_skb_gso g != 0
          | Option.none => false
        if gsoFail then
          let s2 := { s1 with
            rsp_cons := s1.rsp_cons + (rest.length + 1),
            errq := s1.errq ++ (skb :: rest),
            rx_errors := s1.rx_errors + 1 }
          some (s2, false)
        else
          let s3 := { s1 with
            rsp_cons := s1.rsp_cons + rest.length + 1,
            rxq := s1.rxq ++ [skb],
            freed := s1.freed ++ rest }
          some (s3, true)

/-- The post-loop `__skb_queue_purge(&errq)` of `xennet_poll`. -/
def pollPurgeErrq (s : RxState) : RxState :=
  { s with freed := s.freed ++ s.errq, errq := [] }

/-- The fill-target shrink of `xennet_poll`:

```
if (((np->rx.req_prod_pvt - np->rx.sring->rsp_prod) > ((3*np->rx_target)/4))
    && (--np->rx_target < np->rx_min_target))
    np->rx_target = np->rx_min_target;
```

(the model uses `Nat` counters and is read under `1 ≤ rx_target`). -/
def rxPollShrink (s : RxState) : RxState :=
  if 3 * s.rx_target / 4 < s.req_prod_pvt - s.sring_rsp_prod then
    let t := s.rx_target - 1
    let t := if t < s.rx_min_target then s.rx_min_target else t
    { s with rx_target := t }
  else s

/-- The refill loop of `xennet_alloc_rx_buffers` (after the `refill`
label): dequeue each staged buffer, assign it the ring-position-derived
slot id, claim and bind a grant, and write the request.  `none` models
`BUG_ON(np->rx_slots[id].skb)` and grant-pool exhaustion. -/
def rxRefillLoop (req_prod : Nat) (j : Nat) (batch : List Nat)
    (s : RxState) : Option RxState :=
  match batch with
  | [] => some { s with req_prod_pvt := req_prod + j, rx_batch := [] }
  | skb :: rest =>
    let id := xennet_rxidx s (req_prod + j)
    if (s.rx_slots id).skb ≠ none then none
    else
      match s.gref_rx_head with
      | [] => none
      | ref :: pool =>
        let slots' := fun k => if k = id then { skb := some skb, gref := ref }
                               else s.rx_slots k
        let reqs' := fun k => if k = req_prod + j then { id := id, gref := ref }
                              else s.reqRing k
        rxRefillLoop req_prod (j + 1) rest
          { s with rx_slots := slots', reqRing := reqs',
                   gref_rx_head := pool }

/-- `RING_PUSH_REQUESTS_AND_CHECK_NOTIFY` on the RX ring (the notify
decision itself is not modelled). -/
def rxPushRequests (s : RxState) : RxState :=
  { s with sring_req_prod := s.req_prod_pvt }

/-- `xennet_alloc_rx_buffers(dev)`.  `allocBudget` is the number of
buffer allocations the allocator will grant before failing; fresh buffers
take ids from `next_skb`. -/
def xennet_alloc_rx_buffers (carrier : Bool) (allocBudget : Nat)
    (s : RxState) : Option RxState :=
  if !carrier then some s
  else
    let req_prod := s.req_prod_pvt
    let batch_target := s.rx_target - (req_prod - s.rsp_cons)
    let want := batch_target - s.rx_batch.length
    let got := min want allocBudget
    let newSkbs := List.range' s.next_skb got
    let s1 := { s with
                rx_batch := s.rx_batch ++ newSkbs,
                next_skb := s.next_skb + got }
    let i := s.rx_batch.length + got
    let fullyAlloc := want ≤ allocBudget
    if !fullyAlloc && decide (i ≠ 0) then
      -- allocation failed with buffers staged: force them out (goto refill)
      match rxRefillLoop req_prod 0 s1.rx_batch s1 with
      | Option.none => none
      | Option.some s2 => some (rxPushRequests s2)
    else
      -- on total allocation failure arm the retry timer, then fall through
      let s1 := if !fullyAlloc then { s1 with timer_armed := true } else s1
      if i < s1.rx_target / 2 then
        -- batch not worthwhile; flush only a pre-existing unpublished surplus
        if s1.sring_req_prod < req_prod then some (rxPushRequests s1)
        else some s1
      else
        let grow := req_prod - s1.sring_rsp_prod < s1.rx_target / 4
        let t2 := 2 * s1.rx_target
        let newT := if grow then (if s1.rx_max_target < t2 then s1.rx_max_target
                                  else t2)
                    else s1.rx_target
        let s2 := { s1 with rx_target := newT }
        match rxRefillLoop req_prod 0 s2.rx_batch s2 with
        | Option.none => none
        | Option.some s3 => some (rxPushRequests s3)

/-- Project a ring entry to its request view. -/
def txReqOf : TxRingEntry → Option TxRequest
  | TxRingEntry.req q => some q
  | TxRingEntry.extra _ => none

/-- Project a ring entry to its extra-info view. -/
def txExtraOf : TxRingEntry → Option TxGsoExtra
  | TxRingEntry.req _ => none
  | TxRingEntry.extra g => some g

/-- The request descriptors written by a submission, in ring order. -/
def xmitReqs (r : XmitResult) : List TxRequest :=
  r.entries.filterMap txReqOf

/-- The extra-info records written by a submission. -/
def xmitExtras (r : XmitResult) : List TxGsoExtra :=
  r.entries.filterMap txExtraOf

/-- The first request of a descriptor run: the head request if the loops
emitted any, otherwise the still-open current request. -/
def headOrLast (e : List TxRequest) (l : TxRequest) : TxRequest :=
  match e with
  | [] => l
  | x :: _ => x

/-- The per-packet fragment count computed by `xennet_start_xmit`:
`frags = skb_shinfo(skb)->nr_frags + DIV_ROUND_UP(offset + len, PAGE_SIZE)`. -/
def txFragCount (skb : SkBuff) : Nat :=
  skb.frags.length +
    DIV_ROUND_UP (skb.head_offset.val + skb.head_len) PAGE_SIZE

/-- The rejection condition of `xennet_start_xmit`: oversized fragment
count, link down, multi-fragment send without scatter-gather, or a
segmentation-offload requirement that was not negotiated. -/
def xmitDropCond (skb : SkBuff) (carrier can_sg needs_gso : Bool) : Prop :=
  MAX_SKB_FRAGS + 1 < txFragCount skb ∨ carrier = false ∨
  (1 < txFragCount skb ∧ can_sg = false) ∨ needs_gso = true

/-! ## Concrete fixtures used to witness the theorems below -/

/-- A backend that has released every grant it was given. -/
def quietGcEnv : GcEnv := { still_mapped := fun _ => false }

/-- RX environment with no grant still mapped by the backend. -/
def quietRxEnv : RxEnv := { still_mapped := fun _ => false }

/-- TX ring fixture: three consumed responses pending none. -/
def wGcRs : TxRingState :=
  { rsp_cons := 3, sring_rsp_prod := 3, sring_req_prod := 7, rsp_event := 0,
    ring := fun _ => { id := 0, status := 0 } }

/-- TX pool fixture. -/
def wGcSt : TxPoolState :=
  { tx_skb_freelist := 0, tx_slots := fun i => { word := i + 1, gref := 0 },
    gref_tx_head := [] }

/-- An all-zero TX response ring. -/
def wRing0 : Nat → TxResponse := fun _ => { id := 0, status := 0 }

/-- The ring state produced by the fixture GC pass. -/
def wGcRs' : TxRingState := { wGcRs with rsp_cons := 3, rsp_event := 6 }

/-- A one-fragment packet with a 100-byte page-aligned head. -/
def wSkbSmall : SkBuff :=
  { head_offset := ⟨0, by decide⟩, head_len := 100, frags := [],
    gso_size := 0, ip_summed := IpSummed.none, total_len := 100 }

/-- TX pool fixture for submissions. -/
def wTxPool : TxPoolState :=
  { tx_skb_freelist := 0, tx_slots := fun i => { word := i + 1, gref := 0 },
    gref_tx_head := [11, 12, 13, 14] }

/-- The result of dropping a packet without writing descriptors. -/
def wDropRes : XmitResult :=
  { ret := NETDEV_TX_OK, dropped := true, entries := [], st := wTxPool }

/-- A locally-originated unchecksummed packet (`CHECKSUM_PARTIAL`). -/
def wSkbPartial : SkBuff :=
  { head_offset := ⟨0, by decide⟩, head_len := 100, frags := [],
    gso_size := 0, ip_summed := IpSummed.partial_, total_len := 100 }

/-- The single descriptor `wSkbPartial` produces. -/
def wPartialReq : TxRequest :=
  { id := 0, gref := 11, offset := 0, size := 100,
    flags := { csum_blank := true, data_validated := true } }

/-- The pool state after submitting `wSkbPartial`. -/
def wPartialSt : TxPoolState :=
  { tx_skb_freelist := 1,
    tx_slots := fun j => if j = 0 then { word := 0, gref := 11 }
                         else wTxPool.tx_slots j,
    gref_tx_head := [12, 13, 14] }

/-- The submission result for `wSkbPartial`. -/
def wPartialRes : XmitResult :=
  { ret := NETDEV_TX_OK, dropped := false,
    entries := [TxRingEntry.req wPartialReq], st := wPartialSt }

/-- The single descriptor `wSkbSmall` produces. -/
def wSmallReq : TxRequest :=
  { id := 0, gref := 11, offset := 0, size := 100, flags := {} }

/-- The submission result for `wSkbSmall`. -/
def wSmallRes : XmitResult :=
  { ret := NETDEV_TX_OK, dropped := false,
    entries := [TxRingEntry.req wSmallReq], st := wPartialSt }

/-- A quiescent RX state: empty ring, default targets. -/
def wRxBase : RxState :=
  { ringSize := 8, rx_slots := fun _ => { skb := none, gref := 0 },
    rsp_cons := 0, req_prod_pvt := 0, sring_req_prod := 0,
    sring_rsp_prod := 0,
    sring := fun _ =>
      { rsp := { id := 0, offset := 0, flags := {}, status := 0 },
        ext := { ty := 0, more := false, gso_size := 0, gso_ty := 0 } },
    reqRing := fun _ => { id := 0, gref := 0 }, gref_rx_head := [],
    rx_target := 8, rx_min_target := 8, rx_max_target := 16,
    rx_batch := [], next_skb := 0, timer_armed := false, rx_errors := 0,
    errq := [], rxq := [], ended := [], freed := [], vanished := [] }

/-- An RX state holding a well-formed two-fragment chain at the consumer:
fragment 0 carries more-data, fragment 1 ends the chain. -/
def wChainSt : RxState :=
  { wRxBase with
    rx_slots := fun i =>
      if i = 0 then { skb := some 20, gref := 5 }
      else if i = 1 then { skb := some 21, gref := 6 }
      else { skb := none, gref := 0 },
    sring := fun i =>
      if i = 0 then
        { rsp := { id := 0, offset := 0,
                   flags := { more_data := true }, status := 100 },
          ext := { ty := 0, more := false, gso_size := 0, gso_ty := 0 } }
      else if i = 1 then
        { rsp := { id := 1, offset := 0, flags := {}, status := 50 },
          ext := { ty := 0, more := false, gso_size := 0, gso_ty := 0 } }
      else wRxBase.sring i }

/-!
# Theorems
-/

/-- C10: for every freelist head state, every slot table and every id,
`add_id_to_freelist` followed by `get_id_from_freelist` returns that same
id and restores the freelist head to its prior value. -/
theorem freelist_add_get_inverse (head : Nat) (list : Nat → TxSlot)
    (id : Nat) :
    get_id_from_freelist (add_id_to_freelist head list id).1
      (add_id_to_freelist head list id).2 = (id, head) := by
  simp [add_id_to_freelist, get_id_from_freelist, skb_entry_set_link]

/-- C9: the MTU-change operation returns `-EINVAL` and leaves the device
MTU unchanged exactly when the request exceeds the maximum
(`65535 - ETH_HLEN` with scatter-gather, `ETH_DATA_LEN` otherwise);
otherwise it sets the MTU to the requested value and returns success. -/
theorem change_mtu_spec (features_sg : Bool) (dev_mtu mtu : Int) :
    (mtu > (if xennet_can_sg features_sg then 65535 - (ETH_HLEN : Int)
            else (ETH_DATA_LEN : Int)) →
      xennet_change_mtu features_sg dev_mtu mtu = (-EINVAL, dev_mtu)) ∧
    (mtu ≤ (if xennet_can_sg features_sg then 65535 - (ETH_HLEN : Int)
            else (ETH_DATA_LEN : Int)) →
      xennet_change_mtu features_sg dev_mtu mtu = (0, mtu)) := by
  constructor <;> intro h <;> simp [xennet_change_mtu, h]

/-- Witness for `change_mtu_spec` at concrete inputs: 65522 exceeds the
scatter-gather maximum 65521, so the call fails and leaves the MTU alone. -/
theorem change_mtu_spec_witness :
    ((65522 : Int) > (if xennet_can_sg true then 65535 - (ETH_HLEN : Int)
      else (ETH_DATA_LEN : Int))) ∧
    xennet_change_mtu true 1500 65522 = (-EINVAL, 1500) :=
  ⟨by decide, (change_mtu_spec true 1500 65522).1 (by decide)⟩

/-- C6: after a TX completion-GC pass that consumed everything up to the
observed response producer, the response event marker equals
`consumer + (outstanding_requests / 2) + 1`, where `outstanding_requests`
is the shared request producer minus the new consumer position. -/
theorem tx_gc_event_marker (env : GcEnv) (rs : TxRingState)
    (st : TxPoolState)
    (out : TxRingState × TxPoolState × List (Nat × Nat) × List Nat)
    (h : xennet_tx_buf_gc env rs st = some out) :
    out.1.rsp_cons = rs.sring_rsp_prod ∧
    out.1.rsp_event =
      out.1.rsp_cons + (out.1.sring_req_prod - out.1.rsp_cons) / 2 + 1 := by
  simp only [xennet_tx_buf_gc] at h
  split at h
  · exact absurd h (by simp)
  · simp only [Option.some.injEq] at h
    subst h
    simp

/-- Witness for `tx_gc_event_marker`: a concrete GC pass. -/
theorem tx_gc_event_marker_witness :
    xennet_tx_buf_gc quietGcEnv wGcRs wGcSt = some (wGcRs', wGcSt, [], []) ∧
    ((wGcRs', wGcSt, ([] : List (Nat × Nat)),
        ([] : List Nat)).1.rsp_cons = wGcRs.sring_rsp_prod ∧
     (wGcRs', wGcSt, ([] : List (Nat × Nat)),
        ([] : List Nat)).1.rsp_event =
       wGcRs'.rsp_cons + (wGcRs'.sring_req_prod - wGcRs'.rsp_cons) / 2 + 1) := by
  have hEq : xennet_tx_buf_gc quietGcEnv wGcRs wGcSt =
      some (wGcRs', wGcSt, [], []) := by
    simp [xennet_tx_buf_gc, gcLoop, wGcRs, wGcSt, wGcRs', quietGcEnv]
  refine ⟨hEq, ?_⟩
  have := tx_gc_event_marker quietGcEnv wGcRs wGcSt _ hEq
  simpa [wGcRs'] using this

/-- C5: a packet handed to the TX submit operation is dropped — before any
descriptor is written, with the caller informed it was accepted
(`NETDEV_TX_OK`) and discarded — exactly when its required fragment count
exceeds `MAX_SKB_FRAGS + 1`, the link is down, it needs more than one
fragment without scatter-gather, or it requires unnegotiated segmentation
offload; otherwise it is submitted (descriptors are written). -/
theorem xmit_drop_spec (skb : SkBuff) (skbWord : Nat)
    (carrier can_sg needs_gso : Bool) (st : TxPoolState) (res : XmitResult)
    (h : xennet_start_xmit skb skbWord carrier can_sg needs_gso st =
      some res) :
    (xmitDropCond skb carrier can_sg needs_gso →
      res.dropped = true ∧ res.entries = [] ∧ res.st = st) ∧
    (¬ xmitDropCond skb carrier can_sg needs_gso →
      res.dropped = false ∧ res.entries ≠ []) ∧
    res.ret = NETDEV_TX_OK := by
  simp only [xennet_start_xmit] at h
  split at h
  · -- oversized fragment count
    rename_i hbig
    simp only [Option.some.injEq] at h
    subst h
    refine ⟨fun _ => ⟨rfl, rfl, rfl⟩, fun hnc => absurd ?_ hnc, rfl⟩
    exact Or.inl (by simpa [txFragCount] using hbig)
  · rename_i hbig
    split at h
    · -- link down / SG not negotiated / GSO not negotiated
      rename_i hcond
      simp only [Bool.or_eq_true, Bool.and_eq_true, Bool.not_eq_true',
        decide_eq_true_eq] at hcond
      simp only [Option.some.injEq] at h
      subst h
      refine ⟨fun _ => ⟨rfl, rfl, rfl⟩, fun hnc => absurd ?_ hnc, rfl⟩
      rcases hcond with (hc | ⟨hf, hs⟩) | hg
      · exact Or.inr (Or.inl hc)
      · exact Or.inr (Or.inr (Or.inl ⟨by simpa [txFragCount] using hf, hs⟩))
      · exact Or.inr (Or.inr (Or.inr hg))
    · rename_i hcond
      simp only [Bool.or_eq_true, Bool.and_eq_true, Bool.not_eq_true',
        decide_eq_true_eq, not_or, not_and] at hcond
      have hnd : ¬ xmitDropCond skb carrier can_sg needs_gso := by
        simp only [xmitDropCond, txFragCount, not_or]
        refine ⟨by simpa [txFragCount] using hbig, ?_, ?_, ?_⟩
        · exact hcond.1.1
        · intro hboth
          exact hcond.1.2 hboth.1 hboth.2
        · exact hcond.2
      split at h
      · exact absurd h (by simp)
      · rename_i alloc id ref st1 halloc
        split at h
        · exact absurd h (by simp)
        · rename_i mk emitted last st2 hmk
          split at h
          · exact absurd h (by simp)
          · rename_i q t hq
            simp only [Option.some.injEq] at h
            subst h
            exact ⟨fun hd => absurd hd hnd, fun _ => ⟨rfl, by simp⟩, rfl⟩

/-- Witness for `xmit_drop_spec`: with the link down, a small packet is
accepted-and-discarded with no descriptors written. -/
theorem xmit_drop_spec_witness :
    xennet_start_xmit wSkbSmall 0 false true false wTxPool = some wDropRes ∧
    (wDropRes.dropped = true ∧ wDropRes.entries = [] ∧
      wDropRes.st = wTxPool) := by
  have hEq : xennet_start_xmit wSkbSmall 0 false true false wTxPool =
      some wDropRes := by
    simp [xennet_start_xmit, wSkbSmall, wTxPool, wDropRes, DIV_ROUND_UP,
      MAX_SKB_FRAGS, PAGE_SIZE, NETDEV_TX_OK]
  exact ⟨hEq, (xmit_drop_spec wSkbSmall 0 false true false wTxPool wDropRes
    hEq).1 (Or.inr (Or.inl rfl))⟩

/-- The head-splitting loop preserves the checksum and extra-info flag
bits of the current request on the first descriptor it leaves behind. -/
theorem make_frags_head_loop_flags (w : Nat) (off : Fin PAGE_SIZE)
    (len : Nat) (cur : TxRequest) (st : TxPoolState)
    (out : List TxRequest × TxRequest × TxPoolState)
    (h : make_frags_head_loop w off len cur st = some out) :
    (headOrLast out.1 out.2.1).flags.csum_blank = cur.flags.csum_blank ∧
    (headOrLast out.1 out.2.1).flags.data_validated =
      cur.flags.data_validated ∧
    (headOrLast out.1 out.2.1).flags.extra_info = cur.flags.extra_info := by
  unfold make_frags_head_loop at h
  split at h
  · split at h
    · exact absurd h (by simp)
    · rename_i alloc id ref st' halloc
      simp only [] at h
      split at h
      · exact absurd h (by simp)
      · rename_i rec rest last st'' hrec
        simp only [Option.some.injEq] at h
        subst h
        simp [headOrLast]
  · simp only [Option.some.injEq] at h
    subst h
    simp [headOrLast]

/-- The fragment loop preserves the checksum and extra-info flag bits of
the current request on the first descriptor it leaves behind. -/
theorem make_frags_frag_loop_flags (w : Nat) (frags : List SkbFrag)
    (cur : TxRequest) (st : TxPoolState)
    (out : List TxRequest × TxRequest × TxPoolState)
    (h : make_frags_frag_loop w frags cur st = some out) :
    (headOrLast out.1 out.2.1).flags.csum_blank = cur.flags.csum_blank ∧
    (headOrLast out.1 out.2.1).flags.data_validated =
      cur.flags.data_validated ∧
    (headOrLast out.1 out.2.1).flags.extra_info = cur.flags.extra_info := by
  cases frags with
  | nil =>
    simp only [make_frags_frag_loop, Option.some.injEq] at h
    subst h
    simp [headOrLast]
  | cons f fs =>
    simp only [make_frags_frag_loop] at h
    split at h
    · exact absurd h (by simp)
    · rename_i alloc id ref st' halloc
      split at h
      · exact absurd h (by simp)
      · rename_i rec rest last st'' hrec
        simp only [Option.some.injEq] at h
        subst h
        simp [headOrLast]

/-- `xennet_make_frags` preserves the checksum and extra-info flag bits of
the head request on the first descriptor of the run. -/
theorem xennet_make_frags_flags (skb : SkBuff) (w : Nat) (cur : TxRequest)
    (st : TxPoolState) (out : List TxRequest × TxRequest × TxPoolState)
    (h : xennet_make_frags skb w cur st = some out) :
    (headOrLast out.1 out.2.1).flags.csum_blank = cur.flags.csum_blank ∧
    (headOrLast out.1 out.2.1).flags.data_validated =
      cur.flags.data_validated ∧
    (headOrLast out.1 out.2.1).flags.extra_info = cur.flags.extra_info := by
  unfold xennet_make_frags at h
  split at h
  · exact absurd h (by simp)
  · rename_i hl eh cur1 st1 hhl
    split at h
    · exact absurd h (by simp)
    · rename_i fl ef last st2 hfl
      simp only [Option.some.injEq] at h
      subst h
      have h1 := make_frags_head_loop_flags w skb.head_offset skb.head_len
        cur st (eh, cur1, st1) hhl
      have h2 := make_frags_frag_loop_flags w skb.frags cur1 st1
        (ef, last, st2) hfl
      cases eh with
      | nil =>
        simp only [headOrLast] at h1
        simp only [List.nil_append]
        exact ⟨h2.1.trans h1.1, h2.2.1.trans h1.2.1, h2.2.2.trans h1.2.2⟩
      | cons x xs =>
        simpa [headOrLast] using h1

/-- Request projection erases a run of mapped requests back to itself. -/
theorem filterMap_txReqOf_map (t : List TxRequest) :
    (t.map TxRingEntry.req).filterMap txReqOf = t := by
  induction t with
  | nil => rfl
  | cons x xs ih => simp [txReqOf, ih]

/-- C8 (amended): on every packet the TX path submits, the request flags
carry checksum-blank exactly when the packet is locally-originated
unchecksummed data (`CHECKSUM_PARTIAL`), and data-validated exactly when
the packet is `CHECKSUM_PARTIAL` or `CHECKSUM_UNNECESSARY` (the source
sets both bits for `CHECKSUM_PARTIAL`); neither flag is set otherwise. -/
theorem xmit_csum_flags (skb : SkBuff) (skbWord : Nat)
    (carrier can_sg needs_gso : Bool) (st : TxPoolState) (res : XmitResult)
    (q0 : TxRequest) (qs : List TxRequest)
    (h : xennet_start_xmit skb skbWord carrier can_sg needs_gso st =
      some res)
    (hq : xmitReqs res = q0 :: qs) :
    q0.flags.csum_blank = decide (skb.ip_summed = IpSummed.partial_) ∧
    q0.flags.data_validated =
      (decide (skb.ip_summed = IpSummed.partial_) ||
       decide (skb.ip_summed = IpSummed.unnecessary)) := by
  simp only [xennet_start_xmit] at h
  split at h
  · simp only [Option.some.injEq] at h
    subst h
    simp [xmitReqs] at hq
  · split at h
    · simp only [Option.some.injEq] at h
      subst h
      simp [xmitReqs] at hq
    · split at h
      · exact absurd h (by simp)
      · rename_i alloc id ref st1 halloc
        split at h
        · exact absurd h (by simp)
        · rename_i mk emitted last st2 hmk
          split at h
          · exact absurd h (by simp)
          · rename_i q t hdr
            simp only [Option.some.injEq] at h
            subst h
            have hflags := xennet_make_frags_flags skb skbWord _ st1
              (emitted, last, st2) hmk
            -- identify q0 with q and q with the first emitted descriptor
            have hq0 : q0 = q := by
              simp only [xmitReqs] at hq
              split at hq <;>
                simp [txReqOf, filterMap_txReqOf_map] at hq <;>
                exact hq.1.symm
            have hqflags : q.flags = (headOrLast emitted last).flags := by
              cases emitted with
              | nil =>
                simp only [setHeadSize] at hdr
                cases hdr
                simp [headOrLast]
              | cons e es =>
                simp only [List.cons_append, setHeadSize] at hdr
                cases hdr
                simp [headOrLast]
            have hcur := hflags
            rw [← hqflags] at hcur
            rw [hq0]
            constructor
            · rw [hcur.1]
              split <;> cases skb.ip_summed <;> simp [xmitCsumFlags]
            · rw [hcur.2.1]
              split <;> cases skb.ip_summed <;> simp [xmitCsumFlags]

/-- Counterexample to C8 as stated: a `CHECKSUM_PARTIAL` packet gets the
data-validated bit as well, although it is not `CHECKSUM_UNNECESSARY`, so
"data validated exactly when checksum-unnecessary" fails on the code. -/
theorem csum_flags_claim_counterexample :
    ((xennet_start_xmit wSkbPartial 0 true true false wTxPool).map
      (fun r => (xmitReqs r).map (fun q => q.flags)) =
        some [{ csum_blank := true, data_validated := true }]) ∧
    wSkbPartial.ip_summed ≠ IpSummed.unnecessary := by
  constructor
  · simp [xennet_start_xmit, wSkbPartial, wTxPool, txSlotAlloc,
      get_id_from_freelist, xennet_make_frags, make_frags_head_loop,
      make_frags_frag_loop, setHeadSize, xmitCsumFlags, xmitReqs, txReqOf,
      DIV_ROUND_UP, MAX_SKB_FRAGS, PAGE_SIZE, NETDEV_TX_OK]
  · decide

/-- Witness for `xmit_csum_flags`: the concrete `CHECKSUM_PARTIAL`
submission. -/
theorem xmit_csum_flags_witness :
    (xennet_start_xmit wSkbPartial 0 true true false wTxPool =
      some wPartialRes) ∧
    (wPartialReq.flags.csum_blank =
      decide (wSkbPartial.ip_summed = IpSummed.partial_) ∧
     wPartialReq.flags.data_validated =
      (decide (wSkbPartial.ip_summed = IpSummed.partial_) ||
       decide (wSkbPartial.ip_summed = IpSummed.unnecessary))) := by
  have hEq : xennet_start_xmit wSkbPartial 0 true true false wTxPool =
      some wPartialRes := by
    simp [xennet_start_xmit, wSkbPartial, wTxPool, wPartialRes, wPartialSt,
      wPartialReq, txSlotAlloc, get_id_from_freelist, xennet_make_frags,
      make_frags_head_loop, make_frags_frag_loop, setHeadSize, xmitCsumFlags,
      DIV_ROUND_UP, MAX_SKB_FRAGS, PAGE_SIZE, NETDEV_TX_OK]
  have hq : xmitReqs wPartialRes = wPartialReq :: [] := by
    simp [xmitReqs, wPartialRes, txReqOf]
  exact ⟨hEq, xmit_csum_flags wSkbPartial 0 true true false wTxPool
    wPartialRes wPartialReq [] hEq hq⟩

/-- Extra projection erases a run of mapped requests to nothing. -/
theorem filterMap_txExtraOf_map (t : List TxRequest) :
    (t.map TxRingEntry.req).filterMap txExtraOf = [] := by
  induction t with
  | nil => rfl
  | cons x xs ih => simp [txExtraOf, ih]

/-- Composed form of `filterMap_txReqOf_map`. -/
theorem filterMap_txReqOf_comp (t : List TxRequest) :
    List.filterMap (txReqOf ∘ TxRingEntry.req) t = t := by
  induction t with
  | nil => rfl
  | cons x xs ih => simp [txReqOf, Function.comp, ih]

/-- Composed form of `filterMap_txExtraOf_map`. -/
theorem filterMap_txExtraOf_comp (t : List TxRequest) :
    List.filterMap (txExtraOf ∘ TxRingEntry.req) t = [] := by
  induction t with
  | nil => rfl
  | cons x xs ih => simp [txExtraOf, Function.comp, ih]

/-- The head-splitting loop emits one descriptor per page-spanning chunk:
together with the still-open request, `DIV_ROUND_UP(offset + len,
PAGE_SIZE)` descriptors cover the head region. -/
theorem make_frags_head_loop_length (w : Nat) :
    ∀ (len : Nat) (off : Fin PAGE_SIZE) (cur : TxRequest) (st : TxPoolState)
      (out : List TxRequest × TxRequest × TxPoolState),
      make_frags_head_loop w off len cur st = some out →
      0 < off.val + len →
      out.1.length + 1 = DIV_ROUND_UP (off.val + len) PAGE_SIZE := by
  intro len
  induction len using Nat.strong_induction_on with
  | _ len ih =>
    intro off cur st out h hpos
    unfold make_frags_head_loop at h
    split at h
    · rename_i hfire
      split at h
      · exact absurd h (by simp)
      · rename_i alloc id ref st' halloc
        simp only [] at h
        split at h
        · exact absurd h (by simp)
        · rename_i rec rest last st'' hrec
          simp only [Option.some.injEq] at h
          subst h
          have hofflt := off.isLt
          have hlt : len - (PAGE_SIZE - off.val) < len := by
            simp only [PAGE_SIZE] at hfire hofflt ⊢
            omega
          have hrecpos : 0 < (0 : Nat) + (len - (PAGE_SIZE - off.val)) := by
            simp only [PAGE_SIZE] at hfire hofflt ⊢
            omega
          have hih := ih _ hlt _ _ _ _ hrec hrecpos
          simp only [List.length_cons] at hih ⊢
          simp only [DIV_ROUND_UP, PAGE_SIZE] at hih hfire hofflt ⊢
          omega
    · rename_i hnofire
      simp only [Option.some.injEq] at h
      subst h
      have hofflt := off.isLt
      simp only [List.length_nil, DIV_ROUND_UP, PAGE_SIZE] at hnofire hofflt ⊢
      omega

/-- The fragment loop emits exactly one descriptor per fragment. -/
theorem make_frags_frag_loop_length (w : Nat) (frags : List SkbFrag) :
    ∀ (cur : TxRequest) (st : TxPoolState)
      (out : List TxRequest × TxRequest × TxPoolState),
      make_frags_frag_loop w frags cur st = some out →
      out.1.length = frags.length := by
  induction frags with
  | nil =>
    intro cur st out h
    simp only [make_frags_frag_loop, Option.some.injEq] at h
    subst h
    rfl
  | cons f fs ih =>
    intro cur st out h
    simp only [make_frags_frag_loop] at h
    split at h
    · exact absurd h (by simp)
    · rename_i alloc id ref st' halloc
      split at h
      · exact absurd h (by simp)
      · rename_i rec rest last st'' hrec
        simp only [Option.some.injEq] at h
        subst h
        simp [ih _ _ _ hrec]

/-- Every descriptor the head-splitting loop finalises carries the
more-data flag. -/
theorem make_frags_head_loop_more (w : Nat) :
    ∀ (len : Nat) (off : Fin PAGE_SIZE) (cur : TxRequest) (st : TxPoolState)
      (out : List TxRequest × TxRequest × TxPoolState),
      make_frags_head_loop w off len cur st = some out →
      ∀ q ∈ out.1, q.flags.more_data = true := by
  intro len
  induction len using Nat.strong_induction_on with
  | _ len ih =>
    intro off cur st out h q hq
    unfold make_frags_head_loop at h
    split at h
    · rename_i hfire
      split at h
      · exact absurd h (by simp)
      · rename_i alloc id ref st' halloc
        simp only [] at h
        split at h
        · exact absurd h (by simp)
        · rename_i rec rest last st'' hrec
          simp only [Option.some.injEq] at h
          subst h
          have hofflt := off.isLt
          have hlt : len - (PAGE_SIZE - off.val) < len := by
            simp only [PAGE_SIZE] at hfire hofflt ⊢
            omega
          rcases List.mem_cons.mp hq with hq1 | hq2
          · subst hq1; rfl
          · exact ih _ hlt _ _ _ _ hrec q hq2
    · simp only [Option.some.injEq] at h
      subst h
      simp at hq

/-- Every descriptor the fragment loop finalises carries the more-data
flag. -/
theorem make_frags_frag_loop_more (w : Nat) (frags : List SkbFrag) :
    ∀ (cur : TxRequest) (st : TxPoolState)
      (out : List TxRequest × TxRequest × TxPoolState),
      make_frags_frag_loop w frags cur st = some out →
      ∀ q ∈ out.1, q.flags.more_data = true := by
  induction frags with
  | nil =>
    intro cur st out h q hq
    simp only [make_frags_frag_loop, Option.some.injEq] at h
    subst h
    simp at hq
  | cons f fs ih =>
    intro cur st out h q hq
    simp only [make_frags_frag_loop] at h
    split at h
    · exact absurd h (by simp)
    · rename_i alloc id ref st' halloc
      split at h
      · exact absurd h (by simp)
      · rename_i rec rest last st'' hrec
        simp only [Option.some.injEq] at h
        subst h
        rcases List.mem_cons.mp hq with hq1 | hq2
        · subst hq1; rfl
        · exact ih _ _ _ hrec q hq2

/-- The request the head-splitting loop leaves open is either the one it
was given or carries no more-data flag. -/
theorem make_frags_head_loop_last (w : Nat) :
    ∀ (len : Nat) (off : Fin PAGE_SIZE) (cur : TxRequest) (st : TxPoolState)
      (out : List TxRequest × TxRequest × TxPoolState),
      make_frags_head_loop w off len cur st = some out →
      out.2.1 = cur ∨ out.2.1.flags.more_data = false := by
  intro len
  induction len using Nat.strong_induction_on with
  | _ len ih =>
    intro off cur st out h
    unfold make_frags_head_loop at h
    split at h
    · rename_i hfire
      split at h
      · exact absurd h (by simp)
      · rename_i alloc id ref st' halloc
        simp only [] at h
        split at h
        · exact absurd h (by simp)
        · rename_i rec rest last st'' hrec
          simp only [Option.some.injEq] at h
          subst h
          have hofflt := off.isLt
          have hlt : len - (PAGE_SIZE - off.val) < len := by
            simp only [PAGE_SIZE] at hfire hofflt ⊢
            omega
          rcases ih _ hlt _ _ _ _ hrec with hl | hl
          · rw [hl]; right; rfl
          · right; exact hl
    · simp only [Option.some.injEq] at h
      subst h
      left; rfl

/-- The request the fragment loop leaves open is either the one it was
given or carries no more-data flag. -/
theorem make_frags_frag_loop_last (w : Nat) (frags : List SkbFrag) :
    ∀ (cur : TxRequest) (st : TxPoolState)
      (out : List TxRequest × TxRequest × TxPoolState),
      make_frags_frag_loop w frags cur st = some out →
      out.2.1 = cur ∨ out.2.1.flags.more_data = false := by
  induction frags with
  | nil =>
    intro cur st out h
    simp only [make_frags_frag_loop, Option.some.injEq] at h
    subst h
    left; rfl
  | cons f fs ih =>
    intro cur st out h
    simp only [make_frags_frag_loop] at h
    split at h
    · exact absurd h (by simp)
    · rename_i alloc id ref st' halloc
      split at h
      · exact absurd h (by simp)
      · rename_i rec rest last st'' hrec
        simp only [Option.some.injEq] at h
        subst h
        rcases ih _ _ _ hrec with hl | hl
        · rw [hl]; right; rfl
        · right; exact hl

/-- `setHeadSize` preserves list length. -/
theorem setHeadSize_length (sz : Nat) (l : List TxRequest) :
    (setHeadSize sz l).length = l.length := by
  cases l <;> rfl

/-- C4: a packet accepted by the TX submit path with computed fragment
count `k` (page-spanning head chunks plus scatter-gather fragments)
produces exactly `k` request descriptors, plus one extra-info descriptor
exactly when segmentation offload is used, and the more-data flag is set
on every request descriptor except the last, which does not carry it. -/
theorem xmit_fragment_descriptors (skb : SkBuff) (skbWord : Nat)
    (carrier can_sg needs_gso : Bool) (st : TxPoolState) (res : XmitResult)
    (h : xennet_start_xmit skb skbWord carrier can_sg needs_gso st =
      some res)
    (hacc : res.dropped = false) (hlen : 0 < skb.head_len) :
    (xmitReqs res).length = txFragCount skb ∧
    (xmitExtras res).length = (if skb.gso_size ≠ 0 then 1 else 0) ∧
    (∀ q ∈ (xmitReqs res).dropLast, q.flags.more_data = true) ∧
    (∀ q, (xmitReqs res).getLast? = some q → q.flags.more_data = false) := by
  simp only [xennet_start_xmit] at h
  split at h
  · simp only [Option.some.injEq] at h; subst h; simp at hacc
  · split at h
    · simp only [Option.some.injEq] at h; subst h; simp at hacc
    · split at h
      · exact absurd h (by simp)
      · rename_i alloc id ref st1 halloc
        split at h
        · exact absurd h (by simp)
        · rename_i mk emitted last st2 hmk
          split at h
          · exact absurd h (by simp)
          · rename_i q t hdr
            simp only [Option.some.injEq] at h
            subst h
            -- decompose the make_frags run
            unfold xennet_make_frags at hmk
            split at hmk
            · exact absurd hmk (by simp)
            · rename_i hl0 eh cur1 st1' hhl
              split at hmk
              · exact absurd hmk (by simp)
              · rename_i fl0 ef last' st2' hfl
                simp only [Option.some.injEq, Prod.mk.injEq] at hmk
                obtain ⟨hem, hlast, hst2⟩ := hmk
                subst hem; subst hlast; subst hst2
                -- the head request never carries more-data on entry
                have hcurmore : ∀ cu, make_frags_head_loop skbWord
                    skb.head_offset skb.head_len cu st1 =
                      some (eh, cur1, st1') →
                    cu.flags.more_data = false →
                    cur1.flags.more_data = false := by
                  intro cu hcu hmore
                  rcases make_frags_head_loop_last skbWord skb.head_len
                    skb.head_offset cu st1 (eh, cur1, st1') hcu with hc | hc
                  · rw [show cur1 = cu from hc]; exact hmore
                  · exact hc
                have hlastmore : cur1.flags.more_data = false →
                    last'.flags.more_data = false := by
                  intro h1
                  rcases make_frags_frag_loop_last skbWord skb.frags cur1 st1'
                    (ef, last', st2') hfl with hc | hc
                  · rw [show last' = cur1 from hc]; exact h1
                  · exact hc
                have hheadmore : cur1.flags.more_data = false := by
                  refine hcurmore _ hhl ?_
                  split <;> cases skb.ip_summed <;> rfl
                have hlastf : last'.flags.more_data = false :=
                  hlastmore hheadmore
                -- emitted descriptors all carry more-data
                have hmoreall : ∀ x, x ∈ eh ++ ef →
                    x.flags.more_data = true := by
                  intro x hx
                  rcases List.mem_append.mp hx with hx | hx
                  · exact make_frags_head_loop_more skbWord skb.head_len
                      skb.head_offset _ st1 (eh, cur1, st1') hhl x hx
                  · exact make_frags_frag_loop_more skbWord skb.frags cur1
                      st1' (ef, last', st2') hfl x hx
                -- lengths
                have hLh := make_frags_head_loop_length skbWord skb.head_len
                  skb.head_offset _ st1 (eh, cur1, st1') hhl
                  (by omega)
                have hLf := make_frags_frag_loop_length skbWord skb.frags
                  cur1 st1' (ef, last', st2') hfl
                simp only at hLh hLf
                -- normalise the descriptor list
                have hmatch : (match eh ++ ef with
                    | [] => [last']
                    | _ => (eh ++ ef) ++ [last']) = (eh ++ ef) ++ [last'] := by
                  cases heq : eh ++ ef <;> rfl
                rw [hmatch] at hdr
                -- the projections of the written entries
                have hxr : List.filterMap txReqOf
                    (TxRingEntry.req q :: (if skb.gso_size ≠ 0 then
                      [TxRingEntry.extra
                        { size := skb.gso_size,
                          ty := XEN_NETIF_GSO_TYPE_TCPV4, pad := 0,
                          features := 0,
                          extra_type := XEN_NETIF_EXTRA_TYPE_GSO,
                          extra_flags := 0 }]
                      else []) ++ List.map TxRingEntry.req t) = q :: t := by
                  split <;>
                    simp [txReqOf, filterMap_txReqOf_map, filterMap_txReqOf_comp]
                have hxe : (List.filterMap txExtraOf
                    (TxRingEntry.req q :: (if skb.gso_size ≠ 0 then
                      [TxRingEntry.extra
                        { size := skb.gso_size,
                          ty := XEN_NETIF_GSO_TYPE_TCPV4, pad := 0,
                          features := 0,
                          extra_type := XEN_NETIF_EXTRA_TYPE_GSO,
                          extra_flags := 0 }]
                      else []) ++ List.map TxRingEntry.req t)).length =
                    (if skb.gso_size ≠ 0 then 1 else 0) := by
                  split <;>
                    simp [txExtraOf, filterMap_txExtraOf_map,
                      filterMap_txExtraOf_comp]
                refine ⟨?_, ?_, ?_, ?_⟩
                · show (List.filterMap txReqOf _).length = _
                  rw [hxr]
                  have : (q :: t).length =
                      (setHeadSize skb.total_len ((eh ++ ef) ++ [last'])).length := by
                    rw [hdr]
                  rw [setHeadSize_length] at this
                  simp only [List.length_append, List.length_cons,
                    List.length_nil, txFragCount] at this ⊢
                  omega
                · exact hxe
                · show ∀ x, x ∈ (List.filterMap txReqOf _).dropLast → _
                  rw [hxr]
                  cases heh : eh ++ ef with
                  | nil =>
                    rw [heh] at hdr
                    simp only [List.nil_append, setHeadSize] at hdr
                    cases hdr
                    intro x hx
                    simp at hx
                  | cons e es =>
                    rw [heh] at hdr
                    simp only [List.cons_append, setHeadSize] at hdr
                    cases hdr
                    intro x hx
                    rw [show ({ e with size := skb.total_len } :: (es ++ [last'])) =
                      (({ e with size := skb.total_len } :: es) ++ [last'])
                      from by simp] at hx
                    rw [List.dropLast_concat] at hx
                    rcases List.mem_cons.mp hx with hx1 | hx2
                    · subst hx1
                      have := hmoreall e (by rw [heh]; exact List.mem_cons_self e es)
                      simpa using this
                    · exact hmoreall x (by rw [heh]; exact List.mem_cons_of_mem e hx2)
                · show ∀ x, (List.filterMap txReqOf _).getLast? = some x → _
                  rw [hxr]
                  cases heh : eh ++ ef with
                  | nil =>
                    rw [heh] at hdr
                    simp only [List.nil_append, setHeadSize] at hdr
                    cases hdr
                    intro x hx
                    simp only [List.getLast?_singleton, Option.some.injEq] at hx
                    subst hx
                    simpa using hlastf
                  | cons e es =>
                    rw [heh] at hdr
                    simp only [List.cons_append, setHeadSize] at hdr
                    cases hdr
                    intro x hx
                    rw [show ({ e with size := skb.total_len } :: (es ++ [last'])) =
                      (({ e with size := skb.total_len } :: es) ++ [last'])
                      from by simp] at hx
                    rw [List.getLast?_concat] at hx
                    cases hx
                    exact hlastf

/-- Witness for `xmit_fragment_descriptors`: a single-fragment packet
yields one descriptor without the more-data flag. -/
theorem xmit_fragment_descriptors_witness :
    (xennet_start_xmit wSkbSmall 0 true true false wTxPool =
      some wSmallRes) ∧
    wSmallRes.dropped = false ∧ 0 < wSkbSmall.head_len ∧
    ((xmitReqs wSmallRes).length = txFragCount wSkbSmall ∧
     (xmitExtras wSmallRes).length =
       (if wSkbSmall.gso_size ≠ 0 then 1 else 0) ∧
     (∀ q ∈ (xmitReqs wSmallRes).dropLast, q.flags.more_data = true) ∧
     (∀ q, (xmitReqs wSmallRes).getLast? = some q →
        q.flags.more_data = false)) := by
  have hEq : xennet_start_xmit wSkbSmall 0 true true false wTxPool =
      some wSmallRes := by
    simp [xennet_start_xmit, wSkbSmall, wTxPool, wSmallRes, wPartialSt,
      wSmallReq, txSlotAlloc, get_id_from_freelist, xennet_make_frags,
      make_frags_head_loop, make_frags_frag_loop, setHeadSize, xmitCsumFlags,
      DIV_ROUND_UP, MAX_SKB_FRAGS, PAGE_SIZE, NETDEV_TX_OK]
  exact ⟨hEq, rfl, by decide,
    xmit_fragment_descriptors wSkbSmall 0 true true false wTxPool wSmallRes
      hEq rfl (by decide)⟩


/-- The refill loop never touches the fill-target fields. -/
theorem rxRefillLoop_targets : ∀ (batch : List Nat) (req_prod j : Nat)
    (s s' : RxState), rxRefillLoop req_prod j batch s = some s' →
    s'.rx_target = s.rx_target ∧ s'.rx_min_target = s.rx_min_target ∧
    s'.rx_max_target = s.rx_max_target := by
  intro batch
  induction batch with
  | nil =>
    intro req_prod j s s' h
    simp only [rxRefillLoop, Option.some.injEq] at h
    subst h
    exact ⟨rfl, rfl, rfl⟩
  | cons skb rest ih =>
    intro req_prod j s s' h
    simp only [rxRefillLoop] at h
    split at h
    · exact absurd h (by simp)
    · split at h
      · exact absurd h (by simp)
      · rename_i pool ref grefs hpool
        have hr := ih _ _ _ _ h
        exact ⟨hr.1, hr.2.1, hr.2.2⟩

/-- How a refill pass (`xennet_alloc_rx_buffers`) may move `rx_target`:
either it leaves it alone, or — when the headroom between requests issued
and responses produced has dropped below a quarter of the target — it
doubles it, clamped at `rx_max_target`.  The bounds are untouched. -/
theorem alloc_rx_target_spec (carrier : Bool) (budget : Nat)
    (s s' : RxState)
    (h : xennet_alloc_rx_buffers carrier budget s = some s') :
    s'.rx_min_target = s.rx_min_target ∧
    s'.rx_max_target = s.rx_max_target ∧
    (s'.rx_target = s.rx_target ∨
     (s'.rx_target = min (2 * s.rx_target) s.rx_max_target ∧
      s.req_prod_pvt - s.sring_rsp_prod < s.rx_target / 4)) := by
  simp only [xennet_alloc_rx_buffers] at h
  split at h
  · simp only [Option.some.injEq] at h
    subst h
    exact ⟨rfl, rfl, Or.inl rfl⟩
  · split at h
    · -- allocation failed with a non-empty batch: forced refill, no growth
      split at h
      · exact absurd h (by simp)
      · rename_i s2 hrefill
        simp only [Option.some.injEq] at h
        subst h
        have hr := rxRefillLoop_targets _ _ _ _ _ hrefill
        simp only [rxPushRequests] at hr ⊢
        exact ⟨hr.2.1, hr.2.2, Or.inl hr.1⟩
    · -- the retry-timer arming `if` (total allocation failure or not)
      split at h
      all_goals
        split at h
        case isTrue =>
          -- batch below half target: publish surplus or return, no growth
          split at h <;>
            (simp only [Option.some.injEq] at h; subst h;
             exact ⟨rfl, rfl, Or.inl rfl⟩)
        case isFalse =>
          -- growth check, then refill
          split at h
          · exact absurd h (by simp)
          · rename_i s3 hrefill
            simp only [Option.some.injEq] at h
            subst h
            have hr := rxRefillLoop_targets _ _ _ _ _ hrefill
            simp only [rxPushRequests] at hr ⊢
            refine ⟨hr.2.1, hr.2.2, ?_⟩
            rw [hr.1]
            split
            · rename_i hgrow
              refine Or.inr ⟨?_, hgrow⟩
              split <;> omega
            · exact Or.inl rfl

/-- C3: `rx_target` stays within `[rx_min_target, rx_max_target]`; a
refill pass grows it only by doubling clamped at `rx_max_target`, and only
when requests-issued minus responses-consumed is below a quarter of the
target; the poll-pass shrink lowers it only by exactly one, clamped at
`rx_min_target`; and no poll pass (shrink followed by refill) both shrinks
and grows the target. -/
theorem rx_fill_target_policy (s : RxState)
    (hmin1 : 1 ≤ s.rx_min_target) (hmin : s.rx_min_target ≤ s.rx_target)
    (hmax : s.rx_target ≤ s.rx_max_target) :
    (∀ carrier budget s',
       xennet_alloc_rx_buffers carrier budget s = some s' →
       (s.rx_min_target ≤ s'.rx_target ∧ s'.rx_target ≤ s.rx_max_target) ∧
       (s'.rx_target = s.rx_target ∨
        (s'.rx_target = min (2 * s.rx_target) s.rx_max_target ∧
         s.req_prod_pvt - s.sring_rsp_prod < s.rx_target / 4))) ∧
    ((rxPollShrink s).rx_target = s.rx_target ∨
     (rxPollShrink s).rx_target = max (s.rx_target - 1) s.rx_min_target) ∧
    (s.rx_min_target ≤ (rxPollShrink s).rx_target ∧
     (rxPollShrink s).rx_target ≤ s.rx_max_target) ∧
    (∀ carrier budget s',
       xennet_alloc_rx_buffers carrier budget (rxPollShrink s) = some s' →
       ¬((rxPollShrink s).rx_target < s.rx_target ∧
         (rxPollShrink s).rx_target < s'.rx_target)) := by
  have hshr : (rxPollShrink s).rx_target = s.rx_target ∨
      ((rxPollShrink s).rx_target = max (s.rx_target - 1) s.rx_min_target ∧
       3 * s.rx_target / 4 < s.req_prod_pvt - s.sring_rsp_prod) := by
    unfold rxPollShrink
    split
    · rename_i hgap
      right
      refine ⟨?_, hgap⟩
      simp only []
      split <;> omega
    · left; rfl
  have hshrfields : (rxPollShrink s).req_prod_pvt = s.req_prod_pvt ∧
      (rxPollShrink s).sring_rsp_prod = s.sring_rsp_prod ∧
      (rxPollShrink s).rx_min_target = s.rx_min_target ∧
      (rxPollShrink s).rx_max_target = s.rx_max_target := by
    unfold rxPollShrink
    split <;> exact ⟨rfl, rfl, rfl, rfl⟩
  refine ⟨?_, ?_, ?_, ?_⟩
  · intro carrier budget s' h
    have ha := alloc_rx_target_spec carrier budget s s' h
    rcases ha.2.2 with hsame | ⟨hdouble, htrig⟩
    · exact ⟨⟨by omega, by omega⟩, Or.inl hsame⟩
    · refine ⟨⟨?_, ?_⟩, Or.inr ⟨hdouble, htrig⟩⟩ <;> omega
  · rcases hshr with h1 | h1
    · exact Or.inl h1
    · exact Or.inr h1.1
  · rcases hshr with h1 | h1
    · rw [h1]; omega
    · rw [h1.1]; omega
  · intro carrier budget s' h hboth
    obtain ⟨hdec, hinc⟩ := hboth
    rcases hshr with h1 | h1
    · omega
    · obtain ⟨htmid, hgap⟩ := h1
      have ha := alloc_rx_target_spec carrier budget _ s' h
      rcases ha.2.2 with hsame | ⟨hdouble, htrig⟩
      · omega
      · rw [hshrfields.1, hshrfields.2.1, htmid] at htrig
        rw [htmid] at hdec
        have : max (s.rx_target - 1) s.rx_min_target = s.rx_target - 1 := by
          omega
        rw [this] at htrig
        omega

/-- Witness for `rx_fill_target_policy` at a concrete quiescent state. -/
theorem rx_fill_target_policy_witness :
    (1 ≤ wRxBase.rx_min_target ∧
     wRxBase.rx_min_target ≤ wRxBase.rx_target ∧
     wRxBase.rx_target ≤ wRxBase.rx_max_target) ∧
    ((∀ carrier budget s',
        xennet_alloc_rx_buffers carrier budget wRxBase = some s' →
        (wRxBase.rx_min_target ≤ s'.rx_target ∧
         s'.rx_target ≤ wRxBase.rx_max_target) ∧
        (s'.rx_target = wRxBase.rx_target ∨
         (s'.rx_target = min (2 * wRxBase.rx_target) wRxBase.rx_max_target ∧
          wRxBase.req_prod_pvt - wRxBase.sring_rsp_prod <
            wRxBase.rx_target / 4))) ∧
     ((rxPollShrink wRxBase).rx_target = wRxBase.rx_target ∨
      (rxPollShrink wRxBase).rx_target =
        max (wRxBase.rx_target - 1) wRxBase.rx_min_target) ∧
     (wRxBase.rx_min_target ≤ (rxPollShrink wRxBase).rx_target ∧
      (rxPollShrink wRxBase).rx_target ≤ wRxBase.rx_max_target) ∧
     (∀ carrier budget s',
        xennet_alloc_rx_buffers carrier budget (rxPollShrink wRxBase) =
          some s' →
        ¬((rxPollShrink wRxBase).rx_target < wRxBase.rx_target ∧
          (rxPollShrink wRxBase).rx_target < s'.rx_target))) :=
  ⟨⟨by decide, by decide, by decide⟩,
   rx_fill_target_policy wRxBase (by decide) (by decide) (by decide)⟩

/-- Two in-window ring positions occupy distinct slots. -/
theorem mod_ne_of_lt (c k1 k2 m : Nat) (h1 : k1 < k2) (h2 : k2 - k1 < m) :
    (c + k1) % m ≠ (c + k2) % m := by
  intro he
  have hdvd : m ∣ (c + k2) - (c + k1) :=
    (Nat.modEq_iff_dvd' (by omega)).mp he
  have := Nat.le_of_dvd (by omega) hdvd
  omega

/-- The chain loop of `xennet_get_responses` on a well-formed chain of `n`
fragments: starting at fragment `j` it consumes the remaining `n - (j-1)`
fragments, leaves the error unchanged, and touches neither the consumer
nor any error/ghost accounting.  The chain is described on the current
state `t`: every response in the window is valid and carries more-data
exactly before the last, and every remaining slot holds a buffer and a
valid grant. -/
theorem getRespLoop_chain (env : RxEnv) (rp cons n : Nat)
    (henv : ∀ r, env.still_mapped r = false)
    (hn : cons + n ≤ rp) :
    ∀ d j (t : RxState) (err : Int) (list : List Nat) (x refx : Nat),
      j + d = n → 1 ≤ j →
      n ≤ t.ringSize →
      (∀ k, k < n → 0 ≤ (t.sring (cons + k)).rsp.status ∧
        ((t.sring (cons + k)).rsp.offset : Int) +
          (t.sring (cons + k)).rsp.status ≤ (PAGE_SIZE : Int) ∧
        ((t.sring (cons + k)).rsp.flags.more_data = true ↔ k + 1 < n)) →
      refx ≠ GRANT_INVALID_REF →
      (∀ k, j ≤ k → k < n →
        (t.rx_slots ((cons + k) % t.ringSize)).skb.isSome = true ∧
        (t.rx_slots ((cons + k) % t.ringSize)).gref ≠ GRANT_INVALID_REF) →
      ∃ tail t',
        getRespLoop env rp cons ((t.sring (cons + (j - 1))).rsp) (some x)
          refx j err list t = some (err, list ++ tail, n, t') ∧
        tail.length = n - (j - 1) ∧
        t'.rsp_cons = t.rsp_cons ∧ t'.rx_errors = t.rx_errors ∧
        t'.errq = t.errq ∧ t'.vanished = t.vanished ∧ t'.freed = t.freed ∧
        t'.rxq = t.rxq := by
  intro d
  induction d with
  | zero =>
    intro j t err list x refx hjd hj1 hsize hchain hrefx hslots
    have hj : j = n := by omega
    subst hj
    obtain ⟨hst, hsum, hmd⟩ := hchain (j - 1) (by omega)
    have hmf : (t.sring (cons + (j - 1))).rsp.flags.more_data = false := by
      rcases Bool.eq_false_or_eq_true
          ((t.sring (cons + (j - 1))).rsp.flags.more_data) with hb | hb
      · exact absurd (hmd.mp hb) (by omega)
      · exact hb
    have hc1 : ¬ ((t.sring (cons + (j - 1))).rsp.status < 0 ∨
        ((t.sring (cons + (j - 1))).rsp.offset : Int) +
          (t.sring (cons + (j - 1))).rsp.status > (PAGE_SIZE : Int)) := by
      push_neg
      exact ⟨by omega, by omega⟩
    have hkey : getRespLoop env rp cons ((t.sring (cons + (j - 1))).rsp)
        (some x) refx j err list t =
        some (err, list ++ [x], j,
          { t with
            ended := t.ended ++ [refx],
            gref_rx_head := refx :: t.gref_rx_head }) := by
      unfold getRespLoop
      simp [getRespStep1, hc1, hrefx, henv, hmf]
    exact ⟨[x], _, hkey, by simp; omega, rfl, rfl, rfl, rfl, rfl, rfl⟩
  | succ d ih =>
    intro j t err list x refx hjd hj1 hsize hchain hrefx hslots
    have hjn : j < n := by omega
    obtain ⟨hst, hsum, hmd⟩ := hchain (j - 1) (by omega)
    have hmt : (t.sring (cons + (j - 1))).rsp.flags.more_data = true :=
      hmd.mpr (by omega)
    have hc1 : ¬ ((t.sring (cons + (j - 1))).rsp.status < 0 ∨
        ((t.sring (cons + (j - 1))).rsp.offset : Int) +
          (t.sring (cons + (j - 1))).rsp.status > (PAGE_SIZE : Int)) := by
      push_neg
      exact ⟨by omega, by omega⟩
    have hrp : ¬ (rp ≤ cons + j) := by omega
    obtain ⟨hsk, hgr⟩ := hslots j (le_refl j) hjn
    obtain ⟨x', hx'⟩ := Option.isSome_iff_exists.mp hsk
    have hrec := ih (j + 1)
      ((xennet_get_rx_ref
        ((xennet_get_rx_skb
          { t with ended := t.ended ++ [refx],
                   gref_rx_head := refx :: t.gref_rx_head }
          (cons + j)).2) (cons + j)).2)
      err (list ++ [x]) x'
      ((t.rx_slots ((cons + j) % t.ringSize)).gref)
      (by omega) (by omega)
    simp only [xennet_get_rx_skb, xennet_get_rx_ref, xennet_rxidx,
      Nat.add_sub_cancel] at hrec
    have hrec2 := hrec hsize
      (by intro k hk; exact hchain k hk)
      hgr
      (by
        intro k hk1 hk2
        have hne : (cons + k) % t.ringSize ≠ (cons + j) % t.ringSize :=
          (mod_ne_of_lt cons j k t.ringSize (by omega) (by omega)).symm
        simpa [hne] using hslots k (by omega) hk2)
    obtain ⟨tail', t', heq, hlen, hc, he, hq, hv, hf, hr⟩ := hrec2
    refine ⟨x :: tail', t', ?_, ?_, hc, he, hq, hv, hf, hr⟩
    · unfold getRespLoop
      simp only [getRespStep1, hc1, if_neg hrefx, henv, hmt, hrp,
        if_false, Bool.not_true, xennet_get_rx_skb, xennet_get_rx_ref,
        xennet_rxidx, hx']
      simp [hc1, hrp, hx', heq]
    · simp at hlen ⊢
      omega

/-- C7: on a well-formed chain of `n` fragments (continuations consumed
while the more-data flag is set), `xennet_get_responses` consumes the
whole chain and returns `-E2BIG` exactly when `n` exceeds the allowed
maximum `MAX_SKB_FRAGS + 1`, the extra fragment allowed exactly when the
head payload length is at most `RX_COPY_THRESHOLD`; on that error the
consumer is advanced past the chain and the poll loop takes the same
poison-and-reclaim path as for a validation failure: the fragments move
to the error queue, the error counter is incremented and the iteration
completes without claiming work. -/
theorem rx_chain_parse (env : RxEnv) (s : RxState) (rp n : Nat)
    (henv : ∀ r, env.still_mapped r = false)
    (hn1 : 1 ≤ n) (hsize : n ≤ s.ringSize)
    (hrp : s.rsp_cons + n ≤ rp)
    (hnoextra : (s.sring s.rsp_cons).rsp.flags.extra_info = false)
    (hchain : ∀ k, k < n →
      0 ≤ (s.sring (s.rsp_cons + k)).rsp.status ∧
      ((s.sring (s.rsp_cons + k)).rsp.offset : Int) +
        (s.sring (s.rsp_cons + k)).rsp.status ≤ (PAGE_SIZE : Int) ∧
      ((s.sring (s.rsp_cons + k)).rsp.flags.more_data = true ↔ k + 1 < n))
    (hslots : ∀ k, k < n →
      (s.rx_slots ((s.rsp_cons + k) % s.ringSize)).skb.isSome = true ∧
      (s.rx_slots ((s.rsp_cons + k) % s.ringSize)).gref ≠
        GRANT_INVALID_REF) :
    ∃ list s',
      xennet_get_responses env s ((s.sring s.rsp_cons).rsp) rp =
        some ((if MAX_SKB_FRAGS +
            (if (s.sring s.rsp_cons).rsp.status ≤ (RX_COPY_THRESHOLD : Int)
             then 1 else 0) < n then -E2BIG else 0), none, list, s') ∧
      list.length = n ∧
      (MAX_SKB_FRAGS +
          (if (s.sring s.rsp_cons).rsp.status ≤ (RX_COPY_THRESHOLD : Int)
           then 1 else 0) < n →
        s'.rsp_cons = s.rsp_cons + n ∧
        (pollIteration env s rp).map
            (fun p => (p.2, p.1.rx_errors, p.1.rsp_cons, p.1.errq)) =
          some (false, s.rx_errors + 1, s.rsp_cons + n, s.errq ++ list)) ∧
      (¬ (MAX_SKB_FRAGS +
          (if (s.sring s.rsp_cons).rsp.status ≤ (RX_COPY_THRESHOLD : Int)
           then 1 else 0) < n) →
        s'.rsp_cons = s.rsp_cons) := by
  obtain ⟨hsk0, hgr0⟩ := hslots 0 (by omega)
  obtain ⟨x0, hx0⟩ := Option.isSome_iff_exists.mp hsk0
  simp only [Nat.add_zero] at hx0 hgr0
  have hloop := getRespLoop_chain env rp s.rsp_cons n henv hrp (n - 1) 1
    ((xennet_get_rx_ref ((xennet_get_rx_skb s s.rsp_cons).2)
      s.rsp_cons).2)
    0 [] x0 ((s.rx_slots (s.rsp_cons % s.ringSize)).gref)
    (by omega) (by omega)
  simp only [xennet_get_rx_skb, xennet_get_rx_ref, xennet_rxidx,
    Nat.add_sub_cancel, Nat.sub_self] at hloop
  have hloop2 := hloop hsize
    (by intro k hk; exact hchain k hk)
    hgr0
    (by
      intro k hk1 hk2
      have hne : (s.rsp_cons + k) % s.ringSize ≠
          (s.rsp_cons + 0) % s.ringSize :=
        (mod_ne_of_lt s.rsp_cons 0 k s.ringSize (by omega)
          (by omega)).symm
      simp only [Nat.add_zero] at hne
      simpa [hne] using hslots k hk2)
  obtain ⟨tail, t', heq, hlen, hcons, herr, hq, hv, hf, hrxq⟩ := hloop2
  simp only [Nat.sub_self, List.nil_append, Nat.sub_zero, Nat.add_zero]
    at heq hlen
  by_cases hbig : MAX_SKB_FRAGS +
      (if (s.sring s.rsp_cons).rsp.status ≤ (RX_COPY_THRESHOLD : Int)
       then 1 else 0) < n
  · have hgresp : xennet_get_responses env s ((s.sring s.rsp_cons).rsp)
        rp = some (-E2BIG, none, tail,
          { t' with rsp_cons := s.rsp_cons + n }) := by
      unfold xennet_get_responses
      simp [xennet_get_rx_skb, xennet_get_rx_ref, xennet_rxidx, hnoextra,
        hx0, heq, hbig, E2BIG]
    refine ⟨tail, { t' with rsp_cons := s.rsp_cons + n }, ?_, hlen,
      fun _ => ⟨rfl, ?_⟩, fun hnb => absurd hbig hnb⟩
    · rw [hgresp, if_pos hbig]
    · simp [pollIteration, hgresp, E2BIG, herr, hq]
  · have hgresp : xennet_get_responses env s ((s.sring s.rsp_cons).rsp)
        rp = some (0, none, tail, t') := by
      unfold xennet_get_responses
      simp [xennet_get_rx_skb, xennet_get_rx_ref, xennet_rxidx, hnoextra,
        hx0, heq, hbig, E2BIG]
    refine ⟨tail, t', ?_, hlen, fun hb => absurd hb hbig, fun _ => hcons⟩
    rw [hgresp, if_neg hbig]

/-- Unfolding equation for `segIds`. -/
theorem segIds_eq (ring : Nat → TxResponse) (cons prod : Nat) :
    segIds ring cons prod =
      if cons < prod then
        (if (ring cons).status = XEN_NETIF_RSP_NULL then []
         else [(ring cons).id]) ++ segIds ring (cons + 1) prod
      else [] := by
  conv_lhs => unfold segIds

/-- `segIds` only looks at the ring inside `[cons, prod)`. -/
theorem segIds_congr (ringA ringB : Nat → TxResponse) :
    ∀ d cons prod, prod ≤ cons + d →
      (∀ j, cons ≤ j → j < prod → ringA j = ringB j) →
      segIds ringA cons prod = segIds ringB cons prod := by
  intro d
  induction d with
  | zero =>
    intro cons prod hd _
    have hnl : ¬ cons < prod := by omega
    rw [segIds_eq ringA cons prod, segIds_eq ringB cons prod,
      if_neg hnl, if_neg hnl]
  | succ d ih =>
    intro cons prod hd hagree
    by_cases hlt : cons < prod
    · rw [segIds_eq ringA cons prod, segIds_eq ringB cons prod,
        if_pos hlt, if_pos hlt, hagree cons (Nat.le_refl cons) hlt,
        ih (cons + 1) prod (by omega) (fun j hj1 hj2 => hagree j (by omega) hj2)]
    · rw [segIds_eq ringA cons prod, segIds_eq ringB cons prod,
        if_neg hlt, if_neg hlt]

/-- Extending the scanned range by one slot appends that slot's
contribution. -/
theorem segIds_snoc (ring : Nat → TxResponse) :
    ∀ d cons prod, prod ≤ cons + d → cons ≤ prod →
      segIds ring cons (prod + 1) =
        segIds ring cons prod ++
          (if (ring prod).status = XEN_NETIF_RSP_NULL then []
           else [(ring prod).id]) := by
  intro d
  induction d with
  | zero =>
    intro cons prod h1 h2
    have hcp : cons = prod := by omega
    subst hcp
    rw [segIds_eq, if_pos (Nat.lt_succ_self cons),
      segIds_eq ring (cons + 1) (cons + 1), if_neg (Nat.lt_irrefl (cons + 1)),
      segIds_eq ring cons cons, if_neg (Nat.lt_irrefl cons)]
    simp
  | succ d ih =>
    intro cons prod h1 h2
    by_cases hlt : cons < prod
    · rw [segIds_eq ring cons (prod + 1), if_pos (by omega : cons < prod + 1),
        segIds_eq ring cons prod, if_pos hlt,
        ih (cons + 1) prod (by omega) (by omega), List.append_assoc]
    · have hcp : cons = prod := by omega
      subst hcp
      rw [segIds_eq, if_pos (Nat.lt_succ_self cons),
        segIds_eq ring (cons + 1) (cons + 1), if_neg (Nat.lt_irrefl (cons + 1)),
        segIds_eq ring cons cons, if_neg (Nat.lt_irrefl cons)]
      simp

/-- A slot after the scanned range does not change the contribution of a
response written there. -/
theorem segIds_update_snoc (ring : Nat → TxResponse) (cons prod : Nat)
    (hcp : cons ≤ prod) (r : TxResponse) :
    segIds (fun j => if j = prod then r else ring j) cons (prod + 1) =
      segIds ring cons prod ++
        (if r.status = XEN_NETIF_RSP_NULL then [] else [r.id]) := by
  rw [segIds_snoc _ prod cons prod (by omega) hcp]
  have h1 : segIds (fun j => if j = prod then r else ring j) cons prod =
      segIds ring cons prod :=
    segIds_congr _ ring prod cons prod (by omega)
      (fun j _ hj2 => by
        have hne : j ≠ prod := by omega
        simp [hne])
  rw [h1]
  simp

/-- The freelist chain only reads the slots it visits. -/
theorem FreelistRepr_congr (N : Nat) (slotsA slotsB : Nat → TxSlot)
    {head : Nat} {l : List Nat} (h : FreelistRepr N slotsA head l) :
    (∀ x ∈ l, slotsB x = slotsA x) → FreelistRepr N slotsB head l := by
  induction h with
  | nil hd hN => exact fun _ => FreelistRepr.nil hd hN
  | cons hd rest hlt hrest ih =>
    intro hagree
    refine FreelistRepr.cons hd rest hlt ?_
    rw [hagree hd (by simp)]
    exact ih (fun x hx => hagree x (by simp [hx]))

/-- In a table whose slot `i` links to `i + 1`, the chain starting at `k`
with `k + d = N` is exactly `[k, k+1, ..., N-1]`. -/
theorem freelistRepr_chain (N : Nat) (slots : Nat → TxSlot)
    (hs : ∀ i, (slots i).word = i + 1) :
    ∀ d k, k + d = N → FreelistRepr N slots k (List.range' k d) := by
  intro d
  induction d with
  | zero =>
    intro k hk
    exact FreelistRepr.nil k (by omega)
  | succ d ih =>
    intro k hk
    have h1 : List.range' k (d + 1) = k :: List.range' (k + 1) d := rfl
    rw [h1]
    refine FreelistRepr.cons k _ (by omega) ?_
    rw [hs k]
    exact ih (k + 1) (by omega)

/-- The invariant holds in the initial state set up by `talk_to_netback`. -/
theorem txInv_init (N : Nat) (ring0 : Nat → TxResponse) (grefs : List Nat) :
    TxInv N (txInit ring0 grefs) := by
  unfold TxInv txInit
  dsimp only
  refine ⟨⟨List.range' 0 N, ?_, ?_, ?_⟩, ?_, ?_, ?_, ?_⟩
  · exact freelistRepr_chain N _ (fun i => rfl) N 0 (by omega)
  · rw [← List.range_eq_range' N]
    exact List.nodup_range N
  · intro x _ hx
    simp at hx
  · simp
  · rw [segIds_eq, if_neg (Nat.lt_irrefl 0)]
    simp
  · intro x hx
    simp at hx
  · exact Nat.le_refl 0

/-- What one GC pass over `[cons, prod)` does to the freelist: every freed
pair records a non-`NULL` response observed in the scanned window carrying
that id, the freed ids are exactly the window's completion ids in order,
and the chain afterwards represents those ids (latest first) pushed onto
the previous free list. -/
theorem gcLoop_spec (N : Nat) (env : GcEnv) (ring : Nat → TxResponse) :
    ∀ d cons prod st stf freed skbs free,
      prod ≤ cons + d →
      gcLoop env ring cons prod st = some (stf, freed, skbs) →
      FreelistRepr N st.tx_slots st.tx_skb_freelist free →
      free.Nodup →
      (segIds ring cons prod).Nodup →
      (∀ x ∈ segIds ring cons prod, x ∉ free ∧ x < N) →
      freed.map Prod.snd = segIds ring cons prod ∧
      (∀ p ∈ freed, cons ≤ p.1 ∧ p.1 < prod ∧ (ring p.1).id = p.2 ∧
        (ring p.1).status ≠ XEN_NETIF_RSP_NULL) ∧
      FreelistRepr N stf.tx_slots stf.tx_skb_freelist
        ((segIds ring cons prod).reverse ++ free) := by
  intro d
  induction d with
  | zero =>
    intro cons prod st stf freed skbs free hd h hrepr hfnd hsnd hsfree
    have hnl : ¬ cons < prod := by omega
    unfold gcLoop at h
    rw [if_neg hnl] at h
    simp only [Option.some.injEq, Prod.mk.injEq] at h
    obtain ⟨h1, h2, _⟩ := h
    subst h1
    subst h2
    rw [segIds_eq, if_neg hnl]
    exact ⟨rfl, by simp, by simpa using hrepr⟩
  | succ d ih =>
    intro cons prod st stf freed skbs free hd h hrepr hfnd hsnd hsfree
    by_cases hlt : cons < prod
    · unfold gcLoop at h
      rw [if_pos hlt] at h
      simp only [add_id_to_freelist, skb_entry_set_link] at h
      by_cases hnull : (ring cons).status = XEN_NETIF_RSP_NULL
      · rw [if_pos hnull] at h
        have hseq : segIds ring cons prod = segIds ring (cons + 1) prod := by
          rw [segIds_eq, if_pos hlt, if_pos hnull]
          simp
        rw [hseq] at hsnd hsfree ⊢
        obtain ⟨ha, hb, hc⟩ :=
          ih (cons + 1) prod st stf freed skbs free (by omega) h hrepr hfnd
            hsnd hsfree
        refine ⟨ha, ?_, hc⟩
        intro p hp
        obtain ⟨h1, h2, h3, h4⟩ := hb p hp
        exact ⟨by omega, h2, h3, h4⟩
      · rw [if_neg hnull] at h
        split at h
        · simp at h
        · split at h
          · simp at h
          · rename_i ostf ofreed oskbs heq
            simp only [Option.some.injEq, Prod.mk.injEq] at h
            obtain ⟨h1, h2, _⟩ := h
            subst h1
            subst h2
            have hsg : segIds ring cons prod =
                (ring cons).id :: segIds ring (cons + 1) prod := by
              rw [segIds_eq, if_pos hlt, if_neg hnull]
              simp
            rw [hsg] at hsnd hsfree ⊢
            obtain ⟨hfresh, htlnd⟩ := List.nodup_cons.mp hsnd
            obtain ⟨hidfree, hidN⟩ := hsfree (ring cons).id (by simp)
            have hrepr1 : FreelistRepr N
                (fun j => if j = (ring cons).id
                  then { (if j = (ring cons).id
                          then { st.tx_slots j with gref := GRANT_INVALID_REF }
                          else st.tx_slots j) with word := st.tx_skb_freelist }
                  else (if j = (ring cons).id
                          then { st.tx_slots j with gref := GRANT_INVALID_REF }
                          else st.tx_slots j))
                (ring cons).id ((ring cons).id :: free) := by
              refine FreelistRepr.cons _ _ hidN ?_
              have hw : ((fun j => if j = (ring cons).id
                  then { (if j = (ring cons).id
                          then { st.tx_slots j with gref := GRANT_INVALID_REF }
                          else st.tx_slots j) with word := st.tx_skb_freelist }
                  else (if j = (ring cons).id
                          then { st.tx_slots j with gref := GRANT_INVALID_REF }
                          else st.tx_slots j)) (ring cons).id).word =
                  st.tx_skb_freelist := by
                simp
              rw [hw]
              refine FreelistRepr_congr N st.tx_slots _ hrepr ?_
              intro x hx
              have hne : x ≠ (ring cons).id := fun hc => hidfree (hc ▸ hx)
              simp [hne]
            have htail : ∀ x ∈ segIds ring (cons + 1) prod,
                x ∉ (ring cons).id :: free ∧ x < N := by
              intro x hx
              obtain ⟨hxf, hxN⟩ := hsfree x (by simp [hx])
              refine ⟨?_, hxN⟩
              simp only [List.mem_cons]
              push_neg
              exact ⟨fun hc => hfresh (hc ▸ hx), hxf⟩
            obtain ⟨ha, hb, hc⟩ :=
              ih (cons + 1) prod _ ostf ofreed oskbs ((ring cons).id :: free)
                (by omega) heq hrepr1
                (List.nodup_cons.mpr ⟨hidfree, hfnd⟩) htlnd htail
            refine ⟨by simp [ha], ?_, ?_⟩
            · intro p hp
              rcases List.mem_cons.mp hp with hp1 | hp2
              · subst hp1
                exact ⟨Nat.le_refl cons, hlt, rfl, hnull⟩
              · obtain ⟨h1, h2, h3, h4⟩ := hb p hp2
                exact ⟨by omega, h2, h3, h4⟩
            · simpa [List.reverse_cons, List.append_assoc] using hc
    · exact ih cons prod st stf freed skbs free (by omega) h hrepr hfnd hsnd
        hsfree

/-- The id-lifecycle invariant is preserved by every step. -/
theorem txInv_step (N : Nat) (env : GcEnv) (s s' : TxLtsState)
    (lab : TxLabel) (hinv : TxInv N s) (hstep : TxStep N env s lab s') :
    TxInv N s' := by
  obtain ⟨⟨free, hrepr, hfnd, hdisj⟩, hnd, hperm, hlt, hcp⟩ := hinv
  cases hstep with
  | handout skbWord id ref pool' hhead halloc =>
    simp only [txSlotAlloc, get_id_from_freelist] at halloc
    split at halloc
    · simp at halloc
    · rename_i ref0 pool0 hgr
      simp only [Option.some.injEq, Prod.mk.injEq] at halloc
      obtain ⟨h1, _, h3⟩ := halloc
      subst h3
      rw [h1] at hrepr hhead ⊢
      cases hrepr with
      | nil hN => omega
      | cons hd rest hhd hrest =>
        have hhdrest : id ∉ rest := (List.nodup_cons.mp hfnd).1
        have hdnin : id ∉ s.inflight := hdisj id (List.mem_cons_self id rest)
        unfold TxInv
        dsimp only
        refine ⟨⟨rest, ?_, (List.nodup_cons.mp hfnd).2, ?_⟩, ?_, ?_, ?_, hcp⟩
        · refine FreelistRepr_congr N s.pool.tx_slots _ hrest ?_
          intro x hx
          have hne : x ≠ id := fun hc => hhdrest (hc ▸ hx)
          simp [hne]
        · intro x hx
          simp only [List.mem_append, List.mem_singleton]
          push_neg
          exact ⟨hdisj x (List.mem_cons_of_mem _ hx),
            fun hc => hhdrest (hc ▸ hx)⟩
        · exact ((List.perm_append_singleton id s.inflight).nodup_iff).mpr
            (List.nodup_cons.mpr ⟨hdnin, hnd⟩)
        · refine (hperm.append_right [id]).trans ?_
          rw [List.append_assoc, List.append_assoc]
          exact List.Perm.append_left _ (List.perm_append_singleton id _)
        · intro x hx
          rcases List.mem_append.mp hx with hx1 | hx2
          · exact hlt x hx1
          · have hxid : x = id := by simpa using hx2
            subst hxid
            exact hhead
  | complete id status hmem hstat =>
    unfold TxInv
    dsimp only
    refine ⟨⟨free, hrepr, hfnd, hdisj⟩, hnd, ?_, hlt, by omega⟩
    rw [segIds_update_snoc s.ring.ring s.ring.rsp_cons s.ring.sring_rsp_prod
      hcp { id := id, status := status }]
    rw [if_neg hstat]
    refine hperm.trans ?_
    refine ((List.perm_cons_erase hmem).append_right _).trans ?_
    refine List.Perm.trans (List.Perm.symm List.perm_middle) ?_
    exact List.Perm.append_left _ (List.perm_append_singleton id _).symm
  | nullResp id =>
    unfold TxInv
    dsimp only
    refine ⟨⟨free, hrepr, hfnd, hdisj⟩, hnd, ?_, hlt, by omega⟩
    rw [segIds_update_snoc s.ring.ring s.ring.rsp_cons s.ring.sring_rsp_prod
      hcp { id := id, status := XEN_NETIF_RSP_NULL }]
    rw [if_pos rfl, List.append_nil]
    exact hperm
  | gc rs' pool' freed skbs hgc =>
    simp only [xennet_tx_buf_gc] at hgc
    split at hgc
    · simp at hgc
    · rename_i stf freedl skbsl heq
      simp only [Option.some.injEq, Prod.mk.injEq] at hgc
      obtain ⟨h1, h2, h3, _⟩ := hgc
      subst h1
      subst h2
      subst h3
      have hpnodup : (s.pending ++
          segIds s.ring.ring s.ring.rsp_cons s.ring.sring_rsp_prod).Nodup :=
        hperm.nodup_iff.mp hnd
      obtain ⟨hpnd, hsnd, hpdisj⟩ := List.nodup_append.mp hpnodup
      have hsub : ∀ x ∈ segIds s.ring.ring s.ring.rsp_cons
          s.ring.sring_rsp_prod, x ∈ s.inflight :=
        fun x hx => hperm.mem_iff.mpr (List.mem_append.mpr (Or.inr hx))
      have hsfree : ∀ x ∈ segIds s.ring.ring s.ring.rsp_cons
          s.ring.sring_rsp_prod, x ∉ free ∧ x < N :=
        fun x hx => ⟨fun hxf => hdisj x hxf (hsub x hx), hlt x (hsub x hx)⟩
      obtain ⟨hmap, _, hrepr'⟩ :=
        gcLoop_spec N env s.ring.ring s.ring.sring_rsp_prod s.ring.rsp_cons
          s.ring.sring_rsp_prod s.pool stf freedl skbsl free (by omega) heq
          hrepr hfnd hsnd hsfree
      unfold TxInv
      dsimp only
      refine ⟨⟨(segIds s.ring.ring s.ring.rsp_cons
          s.ring.sring_rsp_prod).reverse ++ free, hrepr', ?_, ?_⟩,
        hnd.filter _, ?_, ?_, Nat.le_refl _⟩
      · refine List.nodup_append.mpr
          ⟨List.nodup_reverse.mpr hsnd, hfnd, ?_⟩
        intro x hx hxf
        exact (hsfree x (List.mem_reverse.mp hx)).1 hxf
      · intro x hx hmem
        obtain ⟨hin, hpx⟩ := List.mem_filter.mp hmem
        rcases List.mem_append.mp hx with hx1 | hx2
        · simp only [decide_eq_true_eq, hmap] at hpx
          exact hpx (List.mem_reverse.mp hx1)
        · exact hdisj x hx2 hin
      · rw [segIds_eq, if_neg (Nat.lt_irrefl s.ring.sring_rsp_prod),
          List.append_nil]
        refine (hperm.filter _).trans ?_
        rw [List.filter_append]
        have hpf : s.pending.filter
            (fun id => decide (id ∉ freedl.map Prod.snd)) = s.pending := by
          refine List.filter_eq_self.mpr ?_
          intro a ha
          simp only [decide_eq_true_eq, hmap]
          exact fun hc => hpdisj ha hc
        have hsf : (segIds s.ring.ring s.ring.rsp_cons
            s.ring.sring_rsp_prod).filter
            (fun id => decide (id ∉ freedl.map Prod.snd)) = [] := by
          refine List.filter_eq_nil_iff.mpr ?_
          intro a ha
          simp only [decide_eq_true_eq, hmap, Decidable.not_not]
          exact ha
        rw [hpf, hsf, List.append_nil]
      · intro x hx
        exact hlt x (List.mem_filter.mp hx).1

/-- Every reachable state of the id-lifecycle system satisfies the
invariant. -/
theorem txInv_of_reachable (N : Nat) (env : GcEnv)
    (ring0 : Nat → TxResponse) (grefs : List Nat) (s : TxLtsState)
    (h : TxReachable N env ring0 grefs s) : TxInv N s := by
  induction h with
  | init => exact txInv_init N ring0 grefs
  | step t lab t' _ hstep ih => exact txInv_step N env t t' lab ih hstep

/-- C2: in every reachable state of the TX id-lifecycle system, (a) an id
handed out by `get_id_from_freelist` (inside `txSlotAlloc`) is never an id
that is still in flight — it cannot be reused before being returned to the
freelist; and (b) the only operation that returns ids to the freelist, the
GC pass `xennet_tx_buf_gc` built on `add_id_to_freelist`, returns an id
only when a completion response carrying that id with non-`NULL` status
has been observed at a ring position at or below the response producer
(in `[rsp_cons, sring_rsp_prod)`), and that id was indeed in flight. -/
theorem tx_id_reuse (N : Nat) (env : GcEnv) (ring0 : Nat → TxResponse)
    (grefs : List Nat) (s : TxLtsState)
    (hreach : TxReachable N env ring0 grefs s) :
    (∀ skbWord id ref pool',
      s.pool.tx_skb_freelist < N →
      txSlotAlloc skbWord s.pool = some (id, ref, pool') →
      id ∉ s.inflight) ∧
    (∀ rs' pool' freed skbs,
      xennet_tx_buf_gc env s.ring s.pool = some (rs', pool', freed, skbs) →
      ∀ p ∈ freed,
        s.ring.rsp_cons ≤ p.1 ∧ p.1 < s.ring.sring_rsp_prod ∧
        (s.ring.ring p.1).id = p.2 ∧
        (s.ring.ring p.1).status ≠ XEN_NETIF_RSP_NULL ∧
        p.2 ∈ s.inflight) := by
  obtain ⟨⟨free, hrepr, hfnd, hdisj⟩, hnd, hperm, hlt, hcp⟩ :=
    txInv_of_reachable N env ring0 grefs s hreach
  constructor
  · intro skbWord id ref pool' hhead halloc
    simp only [txSlotAlloc, get_id_from_freelist] at halloc
    split at halloc
    · simp at halloc
    · simp only [Option.some.injEq, Prod.mk.injEq] at halloc
      obtain ⟨h1, _, _⟩ := halloc
      rw [h1] at hrepr hhead
      cases hrepr with
      | nil hN => omega
      | cons hd rest hhd hrest =>
        exact hdisj id (List.mem_cons_self id rest)
  · intro rs' pool' freed skbs hgc
    simp only [xennet_tx_buf_gc] at hgc
    split at hgc
    · simp at hgc
    · rename_i stf freedl skbsl heq
      simp only [Option.some.injEq, Prod.mk.injEq] at hgc
      obtain ⟨_, _, h3, _⟩ := hgc
      subst h3
      have hpnodup : (s.pending ++
          segIds s.ring.ring s.ring.rsp_cons s.ring.sring_rsp_prod).Nodup :=
        hperm.nodup_iff.mp hnd
      obtain ⟨_, hsnd, _⟩ := List.nodup_append.mp hpnodup
      have hsub : ∀ x ∈ segIds s.ring.ring s.ring.rsp_cons
          s.ring.sring_rsp_prod, x ∈ s.inflight :=
        fun x hx => hperm.mem_iff.mpr (List.mem_append.mpr (Or.inr hx))
      have hsfree : ∀ x ∈ segIds s.ring.ring s.ring.rsp_cons
          s.ring.sring_rsp_prod, x ∉ free ∧ x < N :=
        fun x hx => ⟨fun hxf => hdisj x hxf (hsub x hx), hlt x (hsub x hx)⟩
      obtain ⟨hmap, hpos, _⟩ :=
        gcLoop_spec N env s.ring.ring s.ring.sring_rsp_prod s.ring.rsp_cons
          s.ring.sring_rsp_prod s.pool stf freedl skbsl free (by omega) heq
          hrepr hfnd hsnd hsfree
      intro p hp
      obtain ⟨h1, h2, h3, h4⟩ := hpos p hp
      refine ⟨h1, h2, h3, h4, ?_⟩
      refine hsub p.2 ?_
      rw [← hmap]
      exact List.mem_map.mpr ⟨p, hp, rfl⟩

/-- Witness for `tx_id_reuse`: the initial state with 16 descriptors. -/
theorem tx_id_reuse_witness :
    (∀ skbWord id ref pool',
      (txInit wRing0 []).pool.tx_skb_freelist < 16 →
      txSlotAlloc skbWord (txInit wRing0 []).pool = some (id, ref, pool') →
      id ∉ (txInit wRing0 []).inflight) ∧
    (∀ rs' pool' freed skbs,
      xennet_tx_buf_gc quietGcEnv (txInit wRing0 []).ring
          (txInit wRing0 []).pool = some (rs', pool', freed, skbs) →
      ∀ p ∈ freed,
        (txInit wRing0 []).ring.rsp_cons ≤ p.1 ∧
        p.1 < (txInit wRing0 []).ring.sring_rsp_prod ∧
        ((txInit wRing0 []).ring.ring p.1).id = p.2 ∧
        ((txInit wRing0 []).ring.ring p.1).status ≠ XEN_NETIF_RSP_NULL ∧
        p.2 ∈ (txInit wRing0 []).inflight) :=
  tx_id_reuse 16 quietGcEnv wRing0 [] (txInit wRing0 []) TxReachable.init

/-- Witness for `rx_chain_parse`: a concrete two-fragment chain, within
the allowed maximum, parses without error and without advancing the
consumer inside the parser. -/
theorem rx_chain_parse_witness :
    ∃ list s',
      xennet_get_responses quietRxEnv wChainSt
          ((wChainSt.sring wChainSt.rsp_cons).rsp) 2 =
        some ((if MAX_SKB_FRAGS +
            (if (wChainSt.sring wChainSt.rsp_cons).rsp.status ≤
              (RX_COPY_THRESHOLD : Int) then 1 else 0) < 2
          then -E2BIG else 0), none, list, s') ∧
      list.length = 2 ∧
      (MAX_SKB_FRAGS +
          (if (wChainSt.sring wChainSt.rsp_cons).rsp.status ≤
            (RX_COPY_THRESHOLD : Int) then 1 else 0) < 2 →
        s'.rsp_cons = wChainSt.rsp_cons + 2 ∧
        (pollIteration quietRxEnv wChainSt 2).map
            (fun p => (p.2, p.1.rx_errors, p.1.rsp_cons, p.1.errq)) =
          some (false, wChainSt.rx_errors + 1, wChainSt.rsp_cons + 2,
            wChainSt.errq ++ list)) ∧
      (¬ (MAX_SKB_FRAGS +
          (if (wChainSt.sring wChainSt.rsp_cons).rsp.status ≤
            (RX_COPY_THRESHOLD : Int) then 1 else 0) < 2) →
        s'.rsp_cons = wChainSt.rsp_cons) :=
  rx_chain_parse quietRxEnv wChainSt 2 2 (fun _ => rfl) (by decide)
    (by decide) (by decide) (by decide) (by decide) (by decide)

end XenNetfront
